import Mathlib

/-!
Shallow embedding of `src/hotspot_analysis.py` (hotspot-analysis-studio).

Conventions of the embedding:
* Python `dict` rows (from `csv.DictReader`) are association lists
  `Row = List (String × String)`; `getV` models `row.get`/`row[k]` lookup and
  `setV` models `row[k] = v` (overwrite in place, else append at the end,
  matching insertion-ordered Python dicts).
* Python floats are idealized as real numbers `ℝ` in the Gi* statistic
  (which uses `sqrt`, trigonometric functions and `erfc`), and as rationals
  `ℚ` in the polygon-join component (whose arithmetic is field operations
  only, so `ℚ` computations agree exactly with the real semantics).
* `float(...)` string parsing is abstracted as an arbitrary parse function
  (`pf : String → ℝ`, resp. `pq : String → ℚ`) passed to the embedded
  functions; no claim depends on the concrete parse semantics.
* The `f"{x:.6f}"` output formatting is abstracted as an arbitrary
  `fmt : ℝ → String`; no claim depends on the concrete format.
* `raise ValueError(...)` is modelled with `Except String`: the whole
  computation aborts with the error, producing no partial output.
-/

namespace HotspotAnalysis

/-- A CSV row: insertion-ordered mapping from column name to cell string. -/
abbrev Row := List (String × String)

/-- Association-list lookup, modelling Python `dict` lookup `r[k]`. -/
def getV : Row → String → Option String
  | [], _ => none
  | (k, v) :: r, key => if k = key then some v else getV r key

/-- Lookup with the empty string as default. -/
def getS (r : Row) (key : String) : String := (getV r key).getD ""

/-- Association-list update, modelling Python `r[k] = v` on an
insertion-ordered dict: overwrite in place if the key exists, else append. -/
def setV : Row → String → String → Row
  | [], key, v => [(key, v)]
  | (k, w) :: r, key, v => if k = key then (key, v) :: r else (k, w) :: setV r key v

/-- The keys of the first row, modelling `set(rows[0].keys())`
in `_validate_columns`. -/
def rowKeys (rows : List Row) : List String := (rows.headD []).map Prod.fst

/-- `[c for c in required if c not in cols]` in `_validate_columns`. -/
def missingCols (rows : List Row) (required : List String) : List String :=
  required.filter (fun c => ! (rowKeys rows).contains c)

/-- `math.radians`: degrees to radians. -/
noncomputable def radians (d : ℝ) : ℝ := d * Real.pi / 180

/-- `_haversine_km` (source lines 42-48): great-circle distance, Earth radius
6371.0088 km. -/
noncomputable def _haversine_km (lat1 lon1 lat2 lon2 : ℝ) : ℝ :=
  let r : ℝ := 6371.0088
  let phi1 := radians lat1
  let phi2 := radians lat2
  let dphi := radians (lat2 - lat1)
  let dlambda := radians (lon2 - lon1)
  let a := Real.sin (dphi / 2) ^ 2 +
    Real.cos phi1 * Real.cos phi2 * Real.sin (dlambda / 2) ^ 2
  2 * r * Real.arcsin (Real.sqrt a)

/-- `_mean` (source lines 51-52). -/
noncomputable def _mean (vals : List ℝ) : ℝ := vals.sum / (vals.length : ℝ)

/-- `_sample_std` (source lines 55-57): sample standard deviation with
divisor `n - 1`. -/
noncomputable def _sample_std (vals : List ℝ) : ℝ :=
  Real.sqrt ((vals.map (fun v => (v - _mean vals) ^ 2)).sum / ((vals.length : ℝ) - 1))

/-- `math.erfc`, expressed by its defining Gaussian integral. -/
noncomputable def erfc (x : ℝ) : ℝ :=
  2 / Real.sqrt Real.pi * ∫ t in Set.Ioi x, Real.exp (-(t ^ 2))

/-- `_normal_sf` (source lines 60-62): standard normal survival function. -/
noncomputable def _normal_sf (abs_z : ℝ) : ℝ := 0.5 * erfc (abs_z / Real.sqrt 2)

/-- `classify_significance` (source lines 65-72). -/
noncomputable def classify_significance (z_score : ℝ) (p_value : ℝ) : String :=
  if p_value ≤ 0.01 then (if z_score > 0 then "Hot Spot 99%" else "Cold Spot 99%")
  else if p_value ≤ 0.05 then (if z_score > 0 then "Hot Spot 95%" else "Cold Spot 95%")
  else if p_value ≤ 0.10 then (if z_score > 0 then "Hot Spot 90%" else "Cold Spot 90%")
  else "Not Significant"

/-- The 7 classification labels, in the order of `classify_significance`. -/
def labels7 : List String :=
  ["Hot Spot 99%", "Cold Spot 99%", "Hot Spot 95%", "Cold Spot 95%",
   "Hot Spot 90%", "Cold Spot 90%", "Not Significant"]

/-- The `(lat, lon)` coordinate pairs parsed from the rows (source line 92,
first two components of `points`). -/
noncomputable def coordsOf (pf : String → ℝ) (rows : List Row)
    (lat_col lon_col : String) : List (ℝ × ℝ) :=
  rows.map (fun r => (pf (getS r lat_col), pf (getS r lon_col)))

/-- The parsed value column (source line 95, `values`). -/
noncomputable def valuesOf (pf : String → ℝ) (rows : List Row)
    (value_col : String) : List ℝ :=
  rows.map (fun r => pf (getS r value_col))

/-- Haversine distance between points `i` and `j` of a coordinate list
(out-of-range indices default to the origin; all uses are in range). -/
noncomputable def havAt (coords : List (ℝ × ℝ)) (i j : ℕ) : ℝ :=
  _haversine_km (coords.getD i (0, 0)).1 (coords.getD i (0, 0)).2
    (coords.getD j (0, 0)).1 (coords.getD j (0, 0)).2

/-- The `(j, distance)` pair list built for point `i` (source lines 103-105). -/
noncomputable def distPairs (coords : List (ℝ × ℝ)) (i : ℕ) : List (ℕ × ℝ) :=
  (List.range coords.length).map (fun j => (j, havAt coords i j))

/-- The order realized by Python's stable `list.sort(key=lambda x: x[1])` on
`distPairs`: by distance, ties by original position, i.e. by index (the pair
list `distPairs` is in index order and indices are distinct, so stable
sorting by distance coincides with sorting by this total lexicographic
order, and the sorted result is uniquely determined). -/
def sortLE (a b : ℕ × ℝ) : Prop := a.2 < b.2 ∨ (a.2 = b.2 ∧ a.1 ≤ b.1)

noncomputable instance : DecidableRel sortLE := fun a b => by
  unfold sortLE; infer_instance

instance : IsTotal (ℕ × ℝ) sortLE :=
  ⟨fun a b => by
    rcases lt_trichotomy a.2 b.2 with h | h | h
    · exact Or.inl (Or.inl h)
    · rcases le_total a.1 b.1 with h1 | h1
      · exact Or.inl (Or.inr ⟨h, h1⟩)
      · exact Or.inr (Or.inr ⟨h.symm, h1⟩)
    · exact Or.inr (Or.inl h)⟩

instance : IsTrans (ℕ × ℝ) sortLE :=
  ⟨fun a b c hab hbc => by
    rcases hab with h | ⟨he, hi⟩
    · rcases hbc with h2 | ⟨he2, _⟩
      · exact Or.inl (h.trans h2)
      · exact Or.inl (he2 ▸ h)
    · rcases hbc with h2 | ⟨he2, hi2⟩
      · exact Or.inl (he ▸ h2)
      · exact Or.inr ⟨he.trans he2, hi.trans hi2⟩⟩

/-- `dists.sort(key=lambda x: x[1])` (source line 106). -/
noncomputable def sortedDistPairs (coords : List (ℝ × ℝ)) (i : ℕ) : List (ℕ × ℝ) :=
  (distPairs coords i).insertionSort sortLE

/-- `k = min(k_neighbors + 1, n)` (source line 108), as a natural number. -/
def kkOf (k_neighbors : ℤ) (n : ℕ) : ℕ := (min (k_neighbors + 1) (n : ℤ)).toNat

/-- `neighbor_ids = {idx for idx, _ in dists[:k]}` (source line 109). -/
noncomputable def neighbor_ids (coords : List (ℝ × ℝ)) (kk i : ℕ) : Finset ℕ :=
  (((sortedDistPairs coords i).take kk).map Prod.fst).toFinset

/-- `wij_sum = float(len(neighbor_ids))` (source line 111). -/
noncomputable def wijSum (coords : List (ℝ × ℝ)) (kk i : ℕ) : ℝ :=
  ((neighbor_ids coords kk i).card : ℝ)

/-- `weighted_x_sum = sum(values[j] for j in neighbor_ids)` (source line 113). -/
noncomputable def weighted_x_sum (values : List ℝ) (s : Finset ℕ) : ℝ :=
  ∑ j ∈ s, values.getD j 0

/-- `denominator = s * sqrt((n * wij_sq_sum - wij_sum ** 2) / (n - 1))`
(source lines 115-116), with `wij_sq_sum = wij_sum` (line 112). -/
noncomputable def denominator_i (coords : List (ℝ × ℝ)) (values : List ℝ)
    (kk i : ℕ) : ℝ :=
  _sample_std values *
    Real.sqrt ((((coords.length : ℝ) * wijSum coords kk i) - wijSum coords kk i ^ 2) /
      ((coords.length : ℝ) - 1))

/-- `z = (weighted_x_sum - (xbar * wij_sum)) / denominator` (source line 120). -/
noncomputable def z_i (coords : List (ℝ × ℝ)) (values : List ℝ) (kk i : ℕ) : ℝ :=
  (weighted_x_sum values (neighbor_ids coords kk i) -
    _mean values * wijSum coords kk i) / denominator_i coords values kk i

/-- `p = 2 * _normal_sf(abs(z))` (source line 121). -/
noncomputable def p_i (coords : List (ℝ × ℝ)) (values : List ℝ) (kk i : ℕ) : ℝ :=
  2 * _normal_sf |z_i coords values kk i|

/-- Source lines 123-127: copy the input row and set the three result
fields (Python dict assignment overwrites an existing key in place). -/
noncomputable def enrichRow (fmt : ℝ → String) (coords : List (ℝ × ℝ))
    (values : List ℝ) (kk : ℕ) (r : Row) (i : ℕ) : Row :=
  setV (setV (setV r "gi_star_zscore" (fmt (z_i coords values kk i)))
      "gi_star_pvalue" (fmt (p_i coords values kk i)))
    "gi_bin" (classify_significance (z_i coords values kk i) (p_i coords values kk i))

/-- The per-point loop of `compute_gi_star_rows` (source lines 102-127):
raise on the first zero denominator, else emit the enriched rows in order. -/
noncomputable def giStarLoop (fmt : ℝ → String) (coords : List (ℝ × ℝ))
    (values : List ℝ) (kk : ℕ) : ℕ → List Row → Except String (List Row)
  | _, [] => Except.ok []
  | i, r :: rs =>
    if denominator_i coords values kk i = 0 then
      Except.error "Encountered zero denominator in Gi* computation"
    else
      Except.map (fun tl => enrichRow fmt coords values kk r i :: tl)
        (giStarLoop fmt coords values kk (i + 1) rs)

/-- `compute_gi_star_rows` (source lines 75-128). Validation mirrors
`_validate_columns` and lines 85-99; the error carried by `Except.error`
aborts the whole computation with no partial output, as `raise` does. -/
noncomputable def compute_gi_star_rows (pf : String → ℝ) (fmt : ℝ → String)
    (rows : List Row) (id_col lat_col lon_col value_col : String)
    (k_neighbors : ℤ) : Except String (List Row) :=
  if rows.isEmpty then Except.error "Input CSV is empty"
  else if missingCols rows [id_col, lat_col, lon_col, value_col] ≠ [] then
    Except.error ("Missing required columns: " ++
      String.intercalate ", " (missingCols rows [id_col, lat_col, lon_col, value_col]))
  else if k_neighbors < 1 then Except.error "k_neighbors must be >= 1"
  else if rows.length < 3 then Except.error "At least 3 points are required"
  else if _sample_std (valuesOf pf rows value_col) = 0 then
    Except.error "Input value column has no variance"
  else
    giStarLoop fmt (coordsOf pf rows lat_col lon_col) (valuesOf pf rows value_col)
      (kkOf k_neighbors rows.length) 0 rows

/-- GeoJSON geometry as dispatched on by `_point_in_geometry` (source lines
152-159): the `"type"` field selects `Polygon` / `MultiPolygon`; any other
type string is carried by `Other` and never contains a point. -/
inductive Geometry where
  | Polygon (coords : List (List (ℚ × ℚ)))
  | MultiPolygon (coords : List (List (List (ℚ × ℚ))))
  | Other (gtype : String)

/-- The per-edge step of `_point_in_ring` (source lines 135-138): toggle
`inside` when the edge straddles the query's `y` and the crossing `x` lies
to the right of the query, with the `or 1e-12` substitute denominator for
a zero y-span (Python's `(y2 - y1) or 1e-12`). The edge `e` is the pair
`((x1, y1), (x2, y2))`. -/
def ringStep (point : ℚ × ℚ) (inside : Bool) (e : (ℚ × ℚ) × (ℚ × ℚ)) : Bool :=
  if (decide (e.1.2 > point.2) != decide (e.2.2 > point.2)) &&
      decide (point.1 < (e.2.1 - e.1.1) * (point.2 - e.1.2) /
        (if e.2.2 - e.1.2 = 0 then 1 / 1000000000000 else e.2.2 - e.1.2) + e.1.1) then
    ! inside
  else inside

/-- The claim-side per-edge step in which the crossing-x division always
uses the true y-span `y2 - y1` with no epsilon substitute. -/
def ringStepExact (point : ℚ × ℚ) (inside : Bool) (e : (ℚ × ℚ) × (ℚ × ℚ)) : Bool :=
  if (decide (e.1.2 > point.2) != decide (e.2.2 > point.2)) &&
      decide (point.1 < (e.2.1 - e.1.1) * (point.2 - e.1.2) / (e.2.2 - e.1.2) + e.1.1) then
    ! inside
  else inside

/-- `_point_in_ring` (source lines 131-139): ray-casting parity over the
edges `ring[i] - ring[(i+1) % len(ring)]`. `ring.rotate 1` is
`drop 1 ++ take 1`, so zipping gives exactly the wrap-around edge pairs. -/
def _point_in_ring (point : ℚ × ℚ) (ring : List (ℚ × ℚ)) : Bool :=
  (ring.zip (ring.rotate 1)).foldl (ringStep point) false

/-- The claim-side variant of `_point_in_ring` with no epsilon substitute
in the crossing-x division. -/
def point_in_ring_exact (point : ℚ × ℚ) (ring : List (ℚ × ℚ)) : Bool :=
  (ring.zip (ring.rotate 1)).foldl (ringStepExact point) false

/-- `_point_in_polygon` (source lines 142-149): inside the outer ring and in
no hole ring. The source indexes `polygon_coords[0]`, which raises on an
empty coordinate list; the embedding returns `false` there, and theorems
about containment restrict to well-formed (non-empty) coordinate lists. -/
def _point_in_polygon (point : ℚ × ℚ) (polygon_coords : List (List (ℚ × ℚ))) : Bool :=
  match polygon_coords with
  | [] => false
  | outer :: holes =>
    _point_in_ring point outer && holes.all (fun hole => ! _point_in_ring point hole)

/-- `_point_in_geometry` (source lines 152-159). -/
def _point_in_geometry (point : ℚ × ℚ) : Geometry → Bool
  | Geometry.Polygon coords => _point_in_polygon point coords
  | Geometry.MultiPolygon coords => coords.any (fun poly => _point_in_polygon point poly)
  | Geometry.Other _ => false

/-- Well-formedness of a geometry: every polygon part has an outer ring
(the source crashes on an empty part rather than deciding containment). -/
def Geometry.wellFormed : Geometry → Prop
  | Geometry.Polygon coords => coords ≠ []
  | Geometry.MultiPolygon coords => ∀ part ∈ coords, part ≠ []
  | Geometry.Other _ => True

/-- A GeoJSON feature as used by the join: a `properties` string mapping and
a geometry (`feat.get("properties", {})`, `feat.get("geometry", {})`;
property values reach the join as strings via `str(...)`). -/
structure Feature where
  props : List (String × String)
  geometry : Geometry

/-- The matching loop of `join_points_to_geojson` (source lines 177-185):
first feature in iteration order that carries the id property and contains
the point wins; no match leaves the empty-string sentinel. -/
def firstMatch (polygon_id_col : String) (point : ℚ × ℚ) : List Feature → String
  | [] => ""
  | f :: fs =>
    match getV f.props polygon_id_col with
    | none => firstMatch polygon_id_col point fs
    | some v =>
      if _point_in_geometry point f.geometry then v
      else firstMatch polygon_id_col point fs

/-- Eligibility-and-containment predicate of the matching loop, as a single
Boolean test (used to characterize `firstMatch` via `List.find?`). -/
def matchPred (polygon_id_col : String) (point : ℚ × ℚ) (f : Feature) : Bool :=
  (getV f.props polygon_id_col).isSome && _point_in_geometry point f.geometry

/-- Claim-side characterization of the match: the first feature (by
`List.find?`) that carries the id property and contains the point. -/
def firstMatchSpec (polygon_id_col : String) (point : ℚ × ℚ)
    (features : List Feature) : String :=
  match features.find? (matchPred polygon_id_col point) with
  | some f => (getV f.props polygon_id_col).getD ""
  | none => ""

/-- The join phase of `join_points_to_geojson` (source lines 175-188):
each row gets the matched polygon id (or `""`) under `polygon_id_col`. -/
def joinRows (pq : String → ℚ) (polygon_id_col lat_col lon_col : String)
    (features : List Feature) (point_rows : List Row) : List Row :=
  point_rows.map (fun row =>
    setV row polygon_id_col
      (firstMatch polygon_id_col (pq (getS row lon_col), pq (getS row lat_col)) features))

/-- A per-polygon accumulator (the `summary_map` entries, source lines
194-205). -/
structure Agg where
  pid : String
  point_count : ℕ
  hotspot_99 : ℕ
  hotspot_95 : ℕ
  hotspot_90 : ℕ
  coldspot_99 : ℕ
  coldspot_95 : ℕ
  coldspot_90 : ℕ
  zscore_sum : ℚ
  min_pvalue : ℚ
deriving DecidableEq

/-- A fresh accumulator (source lines 194-205). -/
def freshAgg (pid : String) : Agg :=
  { pid := pid, point_count := 0, hotspot_99 := 0, hotspot_95 := 0,
    hotspot_90 := 0, coldspot_99 := 0, coldspot_95 := 0, coldspot_90 := 0,
    zscore_sum := 0, min_pvalue := 1 }

/-- One aggregation step on a row's own group entry (source lines 206-225).
The `elif` chain tests the distinct label strings, so independent
conditionals are equivalent. -/
def updateAgg (pq : String → ℚ) (row : Row) (a : Agg) : Agg :=
  let z := pq (getS row "gi_star_zscore")
  let p := pq (getS row "gi_star_pvalue")
  let label := getS row "gi_bin"
  { a with
    point_count := a.point_count + 1,
    zscore_sum := a.zscore_sum + z,
    min_pvalue := min a.min_pvalue p,
    hotspot_99 := if label = "Hot Spot 99%" then a.hotspot_99 + 1 else a.hotspot_99,
    hotspot_95 := if label = "Hot Spot 95%" then a.hotspot_95 + 1 else a.hotspot_95,
    hotspot_90 := if label = "Hot Spot 90%" then a.hotspot_90 + 1 else a.hotspot_90,
    coldspot_99 := if label = "Cold Spot 99%" then a.coldspot_99 + 1 else a.coldspot_99,
    coldspot_95 := if label = "Cold Spot 95%" then a.coldspot_95 + 1 else a.coldspot_95,
    coldspot_90 := if label = "Cold Spot 90%" then a.coldspot_90 + 1 else a.coldspot_90 }

/-- Processing one joined row into the summary map (source lines 191-225):
insert a fresh entry if the pid is new (at the end, as Python dicts do),
then update the entry with that pid. -/
def insertRow (pq : String → ℚ) (polygon_id_col : String) (acc : List Agg)
    (row : Row) : List Agg :=
  (if acc.any (fun a => a.pid = getS row polygon_id_col) then acc
   else acc ++ [freshAgg (getS row polygon_id_col)]).map
    (fun a => if a.pid = getS row polygon_id_col then updateAgg pq row a else a)

/-- `summary_map` after processing all joined rows (source lines 190-225). -/
def buildMap (pq : String → ℚ) (polygon_id_col : String) (rows : List Row) : List Agg :=
  rows.foldl (insertRow pq polygon_id_col) []

/-- An emitted polygon summary row (source lines 227-243). The two derived
fields are `none` exactly when the count is zero (the source emits `""`
there). -/
structure SummaryRow where
  pid : String
  point_count : ℕ
  hotspot_99 : ℕ
  hotspot_95 : ℕ
  hotspot_90 : ℕ
  coldspot_99 : ℕ
  coldspot_95 : ℕ
  coldspot_90 : ℕ
  mean_zscore : Option ℚ
  min_pvalue : Option ℚ
deriving DecidableEq

/-- Finalization of one summary row (source lines 228-243). -/
def finalizeAgg (a : Agg) : SummaryRow :=
  { pid := a.pid, point_count := a.point_count, hotspot_99 := a.hotspot_99,
    hotspot_95 := a.hotspot_95, hotspot_90 := a.hotspot_90,
    coldspot_99 := a.coldspot_99, coldspot_95 := a.coldspot_95,
    coldspot_90 := a.coldspot_90,
    mean_zscore := if a.point_count = 0 then none
      else some (a.zscore_sum / (a.point_count : ℚ)),
    min_pvalue := if a.point_count = 0 then none else some a.min_pvalue }

/-- `join_points_to_geojson` (source lines 162-245), on an already-loaded
feature list (`gj.get("features", [])`; file I/O is outside the core). -/
def join_points_to_geojson (pq : String → ℚ) (point_rows : List Row)
    (features : List Feature) (polygon_id_col lat_col lon_col : String) :
    List Row × List SummaryRow :=
  let joined := joinRows pq polygon_id_col lat_col lon_col features point_rows
  (joined, (buildMap pq polygon_id_col joined).map finalizeAgg)

/-- The rows of a row list that were assigned a given polygon id (the
group a summary row aggregates). -/
def groupOf (polygon_id_col pid : String) (rows : List Row) : List Row :=
  rows.filter (fun r => getS r polygon_id_col = pid)

/-- Folding a list of rows into one accumulator (what the summary fold does
to the entry of one pid). -/
def foldGroup (pq : String → ℚ) (grp : List Row) (a : Agg) : Agg :=
  grp.foldl (fun x r => updateAgg pq r x) a

/-- The accumulator a group's rows produce from a fresh entry. -/
def aggOfGroup (pq : String → ℚ) (pid : String) (grp : List Row) : Agg :=
  foldGroup pq grp (freshAgg pid)

/-- A concrete example parse function for the Gi* fixtures: "1" ↦ 1,
"2" ↦ 2, anything else ↦ 0. -/
noncomputable def examplePf : String → ℝ :=
  fun s => if s = "1" then 1 else if s = "2" then 2 else 0

/-- A concrete example output formatter (its values are irrelevant to every
claim). -/
def exampleFmt : ℝ → String := fun _ => ""

/-- Three rows at identical coordinates with values 0, 1, 2. -/
def exampleRows3 : List Row :=
  [[("id", "a"), ("latitude", "0"), ("longitude", "0"), ("value", "0")],
   [("id", "b"), ("latitude", "0"), ("longitude", "0"), ("value", "1")],
   [("id", "c"), ("latitude", "0"), ("longitude", "0"), ("value", "2")]]

/-- Like `exampleRows3`, but the first row also carries a pre-existing
`gi_bin` column with value "x". -/
def exampleRows8 : List Row :=
  [[("id", "a"), ("latitude", "0"), ("longitude", "0"), ("value", "0"),
    ("gi_bin", "x")],
   [("id", "b"), ("latitude", "0"), ("longitude", "0"), ("value", "1")],
   [("id", "c"), ("latitude", "0"), ("longitude", "0"), ("value", "2")]]

/-- A concrete example point row ("Not Significant", zero z and p). -/
def exampleRowNS : Row :=
  [("latitude", "0"), ("longitude", "0"), ("gi_star_zscore", "0"),
   ("gi_star_pvalue", "0"), ("gi_bin", "Not Significant")]

/-- A concrete example parse function mapping every cell to `0`. -/
def examplePq : String → ℚ := fun _ => 0

/-- A concrete example join run: one point, no features. -/
def exampleJoin : List Row × List SummaryRow :=
  join_points_to_geojson examplePq [exampleRowNS] [] "gid" "latitude" "longitude"

/-- The unique summary row `exampleJoin` produces. -/
def exampleSummaryRow : SummaryRow :=
  { pid := "", point_count := 1, hotspot_99 := 0, hotspot_95 := 0,
    hotspot_90 := 0, coldspot_99 := 0, coldspot_95 := 0, coldspot_90 := 0,
    mean_zscore := some 0, min_pvalue := some 0 }

/-!  ### Helper lemmas  -/

theorem getV_setV_self (r : Row) (key v : String) :
    getV (setV r key v) key = some v := by
  induction r with
  | nil => simp [setV, getV]
  | cons kv r ih =>
    by_cases h : kv.1 = key
    · simp [setV, h, getV]
    · simp [setV, h, getV, ih]

theorem getV_setV_ne (r : Row) (key v other : String) (h : other ≠ key) :
    getV (setV r key v) other = getV r other := by
  induction r with
  | nil => simp [setV, getV, Ne.symm h]
  | cons kv r ih =>
    obtain ⟨k, w⟩ := kv
    by_cases hk : k = key
    · subst hk
      simp [setV, getV, Ne.symm h]
    · by_cases ho : k = other
      · simp [setV, hk, getV, ho, h]
      · simp [setV, hk, getV, ho, ih]

theorem getV_setV_isSome (r : Row) (key v other : String) :
    (getV (setV r key v) other).isSome ↔ (getV r other).isSome ∨ other = key := by
  by_cases h : other = key
  · subst h; simp [getV_setV_self]
  · simp [getV_setV_ne r key v other h, h]

theorem classify_mem_labels7 (z p : ℝ) : classify_significance z p ∈ labels7 := by
  unfold classify_significance labels7
  split_ifs <;> simp

theorem straddle_yspan_ne (y y1 y2 : ℚ) (h : (y1 > y) ≠ (y2 > y)) : y2 - y1 ≠ 0 := by
  intro hz
  have he : y2 = y1 := by linarith [sub_eq_zero.mp hz]
  exact h (by rw [he])

theorem ringStep_eq_exact (point : ℚ × ℚ) (inside : Bool) (e : (ℚ × ℚ) × (ℚ × ℚ)) :
    ringStep point inside e = ringStepExact point inside e := by
  unfold ringStep ringStepExact
  by_cases hs : (e.1.2 > point.2) = (e.2.2 > point.2)
  · simp [hs]
  · rw [if_neg (straddle_yspan_ne point.2 e.1.2 e.2.2 hs)]

theorem updateAgg_pid (pq : String → ℚ) (row : Row) (a : Agg) :
    (updateAgg pq row a).pid = a.pid := rfl

theorem not_any_pid (acc : List Agg) (pid : String)
    (h : ¬acc.any (fun a => a.pid = pid) = true) :
    ∀ a0 ∈ acc, a0.pid ≠ pid := by
  intro a0 ha0
  rw [List.any_eq_true] at h
  push_neg at h
  have h2 := h a0 ha0
  simpa using h2

theorem pids_insertRow (pq : String → ℚ) (pc : String) (acc : List Agg) (row : Row) :
    (insertRow pq pc acc row).map Agg.pid =
      if acc.any (fun a => a.pid = getS row pc) then acc.map Agg.pid
      else acc.map Agg.pid ++ [getS row pc] := by
  have hmap : ∀ ac : List Agg,
      (ac.map (fun a => if a.pid = getS row pc then updateAgg pq row a else a)).map Agg.pid
        = ac.map Agg.pid := by
    intro ac
    rw [List.map_map]
    apply List.map_congr_left
    intro a _
    by_cases hp : a.pid = getS row pc <;> simp [hp, updateAgg_pid]
  unfold insertRow
  by_cases h : acc.any (fun a => a.pid = getS row pc) = true
  · rw [if_pos h, if_pos h, hmap]
  · rw [if_neg h, if_neg h, hmap]
    simp [freshAgg]

theorem mem_insertRow_cases (pq : String → ℚ) (pc : String) (acc : List Agg)
    (row : Row) (a : Agg) (ha : a ∈ insertRow pq pc acc row) :
    (∃ a0 ∈ acc, a0.pid ≠ getS row pc ∧ a = a0) ∨
    (∃ a0 ∈ acc, a0.pid = getS row pc ∧ a = updateAgg pq row a0) ∨
    ((∀ a0 ∈ acc, a0.pid ≠ getS row pc) ∧
      a = updateAgg pq row (freshAgg (getS row pc))) := by
  unfold insertRow at ha
  by_cases h : acc.any (fun x => x.pid = getS row pc) = true
  · rw [if_pos h] at ha
    obtain ⟨a0, ha0, he⟩ := List.mem_map.mp ha
    by_cases hp : a0.pid = getS row pc
    · rw [if_pos hp] at he
      exact Or.inr (Or.inl ⟨a0, ha0, hp, he.symm⟩)
    · rw [if_neg hp] at he
      exact Or.inl ⟨a0, ha0, hp, he.symm⟩
  · rw [if_neg h] at ha
    have hall := not_any_pid acc (getS row pc) h
    obtain ⟨a0, ha0, he⟩ := List.mem_map.mp ha
    rcases List.mem_append.mp ha0 with h0 | h0
    · rw [if_neg (hall a0 h0)] at he
      exact Or.inl ⟨a0, h0, hall a0 h0, he.symm⟩
    · have he0 : a0 = freshAgg (getS row pc) := by simpa using h0
      subst he0
      rw [if_pos (by simp [freshAgg])] at he
      exact Or.inr (Or.inr ⟨hall, he.symm⟩)

theorem exists_pid_insertRow (pq : String → ℚ) (pc : String) (acc : List Agg)
    (row : Row) : ∃ a ∈ insertRow pq pc acc row, a.pid = getS row pc := by
  have hm : getS row pc ∈ (insertRow pq pc acc row).map Agg.pid := by
    rw [pids_insertRow]
    by_cases h : acc.any (fun a => a.pid = getS row pc) = true
    · rw [if_pos h]
      obtain ⟨a0, ha0, hp⟩ := List.any_eq_true.mp h
      exact List.mem_map.mpr ⟨a0, ha0, by simpa using hp⟩
    · rw [if_neg h]
      simp
  obtain ⟨a, ha, he⟩ := List.mem_map.mp hm
  exact ⟨a, ha, he⟩

theorem mem_pid_insertRow (pq : String → ℚ) (pc : String) (acc : List Agg)
    (row : Row) (a0 : Agg) (ha0 : a0 ∈ acc) :
    ∃ a ∈ insertRow pq pc acc row, a.pid = a0.pid := by
  have hmem : a0 ∈ (if acc.any (fun a => a.pid = getS row pc) then acc
      else acc ++ [freshAgg (getS row pc)]) := by
    by_cases h : acc.any (fun a => a.pid = getS row pc) = true
    · rw [if_pos h]; exact ha0
    · rw [if_neg h]; exact List.mem_append_left _ ha0
  refine ⟨if a0.pid = getS row pc then updateAgg pq row a0 else a0,
    List.mem_map.mpr ⟨a0, hmem, rfl⟩, ?_⟩
  by_cases hp : a0.pid = getS row pc <;> simp [hp, updateAgg_pid]

theorem nodup_pids_insertRow (pq : String → ℚ) (pc : String) (acc : List Agg)
    (row : Row) (h : (acc.map Agg.pid).Nodup) :
    ((insertRow pq pc acc row).map Agg.pid).Nodup := by
  rw [pids_insertRow]
  by_cases hc : acc.any (fun a => a.pid = getS row pc) = true
  · rw [if_pos hc]; exact h
  · rw [if_neg hc, List.nodup_append]
    refine ⟨h, List.nodup_singleton _, ?_⟩
    intro p hp
    simp only [List.mem_singleton]
    obtain ⟨a0, ha0, he⟩ := List.mem_map.mp hp
    intro hco
    exact not_any_pid acc (getS row pc) hc a0 ha0 (by rw [he, hco])

theorem groupOf_cons (pc pid : String) (r : Row) (rs : List Row) :
    groupOf pc pid (r :: rs) =
      if getS r pc = pid then r :: groupOf pc pid rs else groupOf pc pid rs := by
  simp only [groupOf, List.filter_cons]
  by_cases h : getS r pc = pid <;> simp [h]

theorem foldGroup_cons (pq : String → ℚ) (r : Row) (grp : List Row) (a : Agg) :
    foldGroup pq (r :: grp) a = foldGroup pq grp (updateAgg pq r a) := rfl

theorem foldl_insertRow_char (pq : String → ℚ) (pc : String) :
    ∀ (rows : List Row) (acc : List Agg), (acc.map Agg.pid).Nodup →
      ∀ a ∈ rows.foldl (insertRow pq pc) acc,
        (∃ a0 ∈ acc, a0.pid = a.pid ∧ a = foldGroup pq (groupOf pc a.pid rows) a0) ∨
        ((∀ a0 ∈ acc, a0.pid ≠ a.pid) ∧ a = aggOfGroup pq a.pid (groupOf pc a.pid rows)) := by
  intro rows
  induction rows with
  | nil =>
    intro acc _ a ha
    exact Or.inl ⟨a, ha, rfl, by simp [groupOf, foldGroup]⟩
  | cons r rs ih =>
    intro acc hnd a ha
    rw [List.foldl_cons] at ha
    rcases ih (insertRow pq pc acc r) (nodup_pids_insertRow pq pc acc r hnd) a ha with
      ⟨a0, ha0, hpid, heq⟩ | ⟨hall, heq⟩
    · rcases mem_insertRow_cases pq pc acc r a0 ha0 with
        ⟨b, hb, hbne, hba⟩ | ⟨b, hb, hbeq, hba⟩ | ⟨hnone, hba⟩
      · have hne : getS r pc ≠ a.pid := by
          rw [← hpid, hba]
          exact fun he => hbne he.symm
        refine Or.inl ⟨b, hb, by rw [← hpid, hba], ?_⟩
        rw [groupOf_cons, if_neg hne, ← hba]
        exact heq
      · have hpb : a.pid = getS r pc := by
          rw [← hpid, hba, updateAgg_pid, hbeq]
        refine Or.inl ⟨b, hb, by rw [← hpid, hba, updateAgg_pid], ?_⟩
        rw [groupOf_cons, if_pos hpb.symm, foldGroup_cons, ← hba]
        exact heq
      · have hpb : a.pid = getS r pc := by
          rw [← hpid, hba, updateAgg_pid]
          simp [freshAgg]
        refine Or.inr ⟨fun b hb he => hnone b hb (he.trans hpb), ?_⟩
        rw [groupOf_cons, if_pos hpb.symm]
        unfold aggOfGroup
        rw [foldGroup_cons]
        have hfr : freshAgg a.pid = freshAgg (getS r pc) := by rw [hpb]
        rw [hfr, ← hba]
        exact heq
    · have hrne : getS r pc ≠ a.pid := by
        obtain ⟨b, hb, hbp⟩ := exists_pid_insertRow pq pc acc r
        intro he
        exact hall b hb (by rw [hbp, he])
      refine Or.inr ⟨fun a0 h0 => ?_, ?_⟩
      · obtain ⟨b, hb, hbp⟩ := mem_pid_insertRow pq pc acc r a0 h0
        rw [← hbp]
        exact hall b hb
      · rw [groupOf_cons, if_neg hrne]
        exact heq

theorem buildMap_char (pq : String → ℚ) (pc : String) (rows : List Row) :
    ∀ a ∈ buildMap pq pc rows, a = aggOfGroup pq a.pid (groupOf pc a.pid rows) := by
  intro a ha
  rcases foldl_insertRow_char pq pc rows [] (by simp) a ha with
    ⟨a0, h0, _⟩ | ⟨_, h⟩
  · simp at h0
  · exact h

theorem foldGroup_pid (pq : String → ℚ) :
    ∀ (grp : List Row) (a : Agg), (foldGroup pq grp a).pid = a.pid := by
  intro grp
  induction grp with
  | nil => intro a; rfl
  | cons r grp ih =>
    intro a
    rw [foldGroup_cons, ih, updateAgg_pid]

theorem foldGroup_point_count (pq : String → ℚ) :
    ∀ (grp : List Row) (a : Agg),
      (foldGroup pq grp a).point_count = a.point_count + grp.length := by
  intro grp
  induction grp with
  | nil => intro a; rfl
  | cons r grp ih =>
    intro a
    rw [foldGroup_cons, ih]
    show a.point_count + 1 + grp.length = _
    simp [Nat.add_assoc, Nat.add_comm 1 grp.length]

theorem foldGroup_count_label (pq : String → ℚ) (label : String) (f : Agg → ℕ)
    (hf : ∀ r x, f (updateAgg pq r x) =
      if getS r "gi_bin" = label then f x + 1 else f x) :
    ∀ (grp : List Row) (a : Agg),
      f (foldGroup pq grp a) =
        f a + (grp.filter (fun r => getS r "gi_bin" = label)).length := by
  intro grp
  induction grp with
  | nil => intro a; simp [foldGroup]
  | cons r grp ih =>
    intro a
    rw [foldGroup_cons, ih, hf, List.filter_cons]
    by_cases h : getS r "gi_bin" = label
    · simp [h]
      omega
    · simp [h]

theorem foldGroup_zscore_sum (pq : String → ℚ) :
    ∀ (grp : List Row) (a : Agg),
      (foldGroup pq grp a).zscore_sum =
        a.zscore_sum + (grp.map (fun r => pq (getS r "gi_star_zscore"))).sum := by
  intro grp
  induction grp with
  | nil => intro a; simp [foldGroup]
  | cons r grp ih =>
    intro a
    rw [foldGroup_cons, ih]
    show a.zscore_sum + pq (getS r "gi_star_zscore") + _ = _
    rw [List.map_cons, List.sum_cons]
    ring

theorem foldGroup_min_pvalue (pq : String → ℚ) :
    ∀ (grp : List Row) (a : Agg),
      (foldGroup pq grp a).min_pvalue =
        grp.foldl (fun m r => min m (pq (getS r "gi_star_pvalue"))) a.min_pvalue := by
  intro grp
  induction grp with
  | nil => intro a; rfl
  | cons r grp ih =>
    intro a
    rw [foldGroup_cons, ih]
    rfl

theorem buildMap_pid_of_mem (pq : String → ℚ) (pc : String) :
    ∀ (rows : List Row) (acc : List Agg) (a : Agg),
      a ∈ rows.foldl (insertRow pq pc) acc →
      a.pid ∈ acc.map Agg.pid ∨ ∃ r ∈ rows, getS r pc = a.pid := by
  intro rows
  induction rows with
  | nil =>
    intro acc a ha
    exact Or.inl (List.mem_map.mpr ⟨a, ha, rfl⟩)
  | cons r rs ih =>
    intro acc a ha
    rw [List.foldl_cons] at ha
    rcases ih (insertRow pq pc acc r) a ha with hin | ⟨r2, hr2, he⟩
    · rw [pids_insertRow] at hin
      by_cases h : acc.any (fun x => x.pid = getS r pc) = true
      · rw [if_pos h] at hin
        exact Or.inl hin
      · rw [if_neg h] at hin
        rcases List.mem_append.mp hin with h2 | h2
        · exact Or.inl h2
        · exact Or.inr ⟨r, List.mem_cons_self r rs, (List.mem_singleton.mp h2).symm⟩
    · exact Or.inr ⟨r2, List.mem_cons_of_mem r hr2, he⟩

theorem buildMap_pid_complete (pq : String → ℚ) (pc : String) :
    ∀ (rows : List Row) (acc : List Agg) (r : Row), r ∈ rows →
      ∃ a ∈ rows.foldl (insertRow pq pc) acc, a.pid = getS r pc := by
  have hkeep : ∀ (rows : List Row) (acc : List Agg) (p : String),
      (∃ a ∈ acc, a.pid = p) →
      ∃ a ∈ rows.foldl (insertRow pq pc) acc, a.pid = p := by
    intro rows
    induction rows with
    | nil => intro acc p h; exact h
    | cons r rs ih =>
      intro acc p ⟨a, ha, hp⟩
      rw [List.foldl_cons]
      refine ih (insertRow pq pc acc r) p ?_
      obtain ⟨b, hb, hbp⟩ := mem_pid_insertRow pq pc acc r a ha
      exact ⟨b, hb, hbp.trans hp⟩
  intro rows
  induction rows with
  | nil => intro acc r h; simp at h
  | cons r0 rs ih =>
    intro acc r h
    rw [List.foldl_cons]
    rcases List.mem_cons.mp h with he | hm
    · subst he
      exact hkeep rs (insertRow pq pc acc r) (getS r pc)
        (exists_pid_insertRow pq pc acc r)
    · exact ih (insertRow pq pc acc r0) r hm

theorem length_eq_sum_filter7 :
    ∀ l : List Row, (∀ r ∈ l, getS r "gi_bin" ∈ labels7) →
      l.length =
        (l.filter (fun r => getS r "gi_bin" = "Hot Spot 99%")).length +
        (l.filter (fun r => getS r "gi_bin" = "Hot Spot 95%")).length +
        (l.filter (fun r => getS r "gi_bin" = "Hot Spot 90%")).length +
        (l.filter (fun r => getS r "gi_bin" = "Cold Spot 99%")).length +
        (l.filter (fun r => getS r "gi_bin" = "Cold Spot 95%")).length +
        (l.filter (fun r => getS r "gi_bin" = "Cold Spot 90%")).length +
        (l.filter (fun r => getS r "gi_bin" = "Not Significant")).length := by
  intro l
  induction l with
  | nil => intro _; simp
  | cons r rs ih =>
    intro h
    have hr := h r (List.mem_cons_self r rs)
    have hrs := ih (fun x hx => h x (List.mem_cons_of_mem r hx))
    simp only [labels7, List.mem_cons, List.not_mem_nil, or_false] at hr
    simp only [List.length_cons, List.filter_cons]
    rcases hr with h0 | h0 | h0 | h0 | h0 | h0 | h0 <;> simp [h0] <;> omega

theorem groupOf_sub (pc pid : String) (rows : List Row) :
    ∀ r ∈ groupOf pc pid rows, r ∈ rows := by
  intro r hr
  exact List.mem_of_mem_filter hr

theorem summary_of_mem (pq : String → ℚ) (point_rows : List Row)
    (features : List Feature) (pc lat_col lon_col : String) (S : SummaryRow)
    (hS : S ∈ (join_points_to_geojson pq point_rows features pc lat_col lon_col).2) :
    ∃ a ∈ buildMap pq pc
        (join_points_to_geojson pq point_rows features pc lat_col lon_col).1,
      S = finalizeAgg a := by
  obtain ⟨a, ha, he⟩ := List.mem_map.mp hS
  exact ⟨a, ha, he.symm⟩

theorem buildMap_group_nonempty (pq : String → ℚ) (pc : String) (rows : List Row)
    (a : Agg) (ha : a ∈ buildMap pq pc rows) : groupOf pc a.pid rows ≠ [] := by
  rcases buildMap_pid_of_mem pq pc rows [] a ha with h | ⟨r, hr, he⟩
  · simp at h
  · intro hemp
    have : r ∈ groupOf pc a.pid rows := List.mem_filter.mpr ⟨hr, by simp [he]⟩
    rw [hemp] at this
    simp at this

theorem firstMatch_eq_spec (pc : String) (p : ℚ × ℚ) :
    ∀ features : List Feature, firstMatch pc p features = firstMatchSpec pc p features := by
  intro features
  induction features with
  | nil => rfl
  | cons f fs ih =>
    cases hv : getV f.props pc with
    | none =>
      have hp : matchPred pc p f = false := by simp [matchPred, hv]
      have h1 : firstMatch pc p (f :: fs) = firstMatch pc p fs := by
        simp only [firstMatch, hv]
      have h2 : firstMatchSpec pc p (f :: fs) = firstMatchSpec pc p fs := by
        unfold firstMatchSpec
        rw [List.find?_cons_of_neg _ (by simp [hp])]
      rw [h1, h2, ih]
    | some v =>
      by_cases hc : _point_in_geometry p f.geometry = true
      · have hp : matchPred pc p f = true := by simp [matchPred, hv, hc]
        have h1 : firstMatch pc p (f :: fs) = v := by
          simp only [firstMatch, hv, if_pos hc]
        have h2 : firstMatchSpec pc p (f :: fs) = v := by
          unfold firstMatchSpec
          rw [List.find?_cons_of_pos _ hp]
          simp [hv]
        rw [h1, h2]
      · have hp : matchPred pc p f = false := by
          simp only [matchPred, hv, Option.isSome_some, Bool.true_and]
          exact Bool.not_eq_true _ ▸ hc
        have h1 : firstMatch pc p (f :: fs) = firstMatch pc p fs := by
          simp only [firstMatch, hv, if_neg hc]
        have h2 : firstMatchSpec pc p (f :: fs) = firstMatchSpec pc p fs := by
          unfold firstMatchSpec
          rw [List.find?_cons_of_neg _ (by simp [hp])]
        rw [h1, h2, ih]

theorem joined_getD (pq : String → ℚ) (point_rows : List Row)
    (features : List Feature) (pc lat_col lon_col : String) (i : ℕ)
    (hi : i < point_rows.length) :
    (joinRows pq pc lat_col lon_col features point_rows).getD i [] =
      setV (point_rows.getD i []) pc
        (firstMatch pc (pq (getS (point_rows.getD i []) lon_col),
          pq (getS (point_rows.getD i []) lat_col)) features) := by
  unfold joinRows
  rw [List.getD_eq_getElem?_getD, List.getElem?_map,
    List.getElem?_eq_getElem hi]
  simp [List.getD_eq_getElem?_getD, List.getElem?_eq_getElem hi]

theorem distPairs_map_fst (coords : List (ℝ × ℝ)) (i : ℕ) :
    (distPairs coords i).map Prod.fst = List.range coords.length := by
  unfold distPairs
  rw [List.map_map]
  have hid : (Prod.fst ∘ fun j => (j, havAt coords i j)) = id := funext fun j => rfl
  rw [hid, List.map_id]

theorem sortedDistPairs_perm (coords : List (ℝ × ℝ)) (i : ℕ) :
    List.Perm (sortedDistPairs coords i) (distPairs coords i) :=
  List.perm_insertionSort sortLE (distPairs coords i)

theorem sortedDistPairs_sorted (coords : List (ℝ × ℝ)) (i : ℕ) :
    List.Sorted sortLE (sortedDistPairs coords i) :=
  List.sorted_insertionSort sortLE (distPairs coords i)

theorem sortedDistPairs_length (coords : List (ℝ × ℝ)) (i : ℕ) :
    (sortedDistPairs coords i).length = coords.length := by
  rw [(sortedDistPairs_perm coords i).length_eq]
  unfold distPairs
  rw [List.length_map, List.length_range]

theorem sortedDistPairs_fst_nodup (coords : List (ℝ × ℝ)) (i : ℕ) :
    ((sortedDistPairs coords i).map Prod.fst).Nodup := by
  have hperm : List.Perm ((sortedDistPairs coords i).map Prod.fst)
      ((distPairs coords i).map Prod.fst) :=
    (sortedDistPairs_perm coords i).map Prod.fst
  rw [distPairs_map_fst] at hperm
  exact hperm.nodup_iff.mpr (List.nodup_range _)

theorem mem_sortedDistPairs (coords : List (ℝ × ℝ)) (i : ℕ) (e : ℕ × ℝ) :
    e ∈ sortedDistPairs coords i ↔ e.1 < coords.length ∧ e.2 = havAt coords i e.1 := by
  rw [(sortedDistPairs_perm coords i).mem_iff]
  unfold distPairs
  constructor
  · intro h
    obtain ⟨j, hj, he⟩ := List.mem_map.mp h
    rw [List.mem_range] at hj
    rw [← he]
    exact ⟨hj, rfl⟩
  · intro ⟨h1, h2⟩
    refine List.mem_map.mpr ⟨e.1, List.mem_range.mpr h1, ?_⟩
    rw [Prod.ext_iff]
    exact ⟨rfl, h2.symm⟩

theorem neighbor_ids_card (coords : List (ℝ × ℝ)) (kk i : ℕ) :
    (neighbor_ids coords kk i).card = min kk coords.length := by
  unfold neighbor_ids
  have hnd : (((sortedDistPairs coords i).take kk).map Prod.fst).Nodup := by
    have hsub : List.Sublist (((sortedDistPairs coords i).take kk).map Prod.fst)
        ((sortedDistPairs coords i).map Prod.fst) :=
      (List.take_sublist kk _).map Prod.fst
    exact (sortedDistPairs_fst_nodup coords i).sublist hsub
  rw [List.toFinset_card_of_nodup hnd, List.length_map, List.length_take,
    sortedDistPairs_length]

theorem mem_neighbor_ids (coords : List (ℝ × ℝ)) (kk i j : ℕ) :
    j ∈ neighbor_ids coords kk i ↔
      (j, havAt coords i j) ∈ (sortedDistPairs coords i).take kk := by
  unfold neighbor_ids
  rw [List.mem_toFinset, List.mem_map]
  constructor
  · intro ⟨e, he, hfst⟩
    have hmem : e ∈ sortedDistPairs coords i := List.mem_of_mem_take he
    have := (mem_sortedDistPairs coords i e).mp hmem
    have he2 : e = (j, havAt coords i j) := by
      rw [Prod.ext_iff]
      exact ⟨hfst, by rw [this.2, hfst]⟩
    rw [← he2]
    exact he
  · intro h
    exact ⟨(j, havAt coords i j), h, rfl⟩

theorem _haversine_self (lat lon : ℝ) : _haversine_km lat lon lat lon = 0 := by
  unfold _haversine_km radians
  simp

theorem _haversine_nonneg (lat1 lon1 lat2 lon2 : ℝ) :
    0 ≤ _haversine_km lat1 lon1 lat2 lon2 := by
  unfold _haversine_km
  refine mul_nonneg (by norm_num) (Real.arcsin_nonneg.mpr (Real.sqrt_nonneg _))

theorem havAt_self (coords : List (ℝ × ℝ)) (i : ℕ) : havAt coords i i = 0 :=
  _haversine_self _ _

theorem havAt_nonneg (coords : List (ℝ × ℝ)) (i j : ℕ) : 0 ≤ havAt coords i j :=
  _haversine_nonneg _ _ _ _

theorem take_sorted_le_drop (coords : List (ℝ × ℝ)) (i kk : ℕ) :
    ∀ a ∈ (sortedDistPairs coords i).take kk,
      ∀ b ∈ (sortedDistPairs coords i).drop kk, sortLE a b := by
  have hs : List.Pairwise sortLE
      ((sortedDistPairs coords i).take kk ++ (sortedDistPairs coords i).drop kk) := by
    rw [List.take_append_drop]
    exact sortedDistPairs_sorted coords i
  exact (List.pairwise_append.mp hs).2.2

theorem take_kk_ne_nil (coords : List (ℝ × ℝ)) (i kk : ℕ) (hk : 1 ≤ kk)
    (hn : 1 ≤ coords.length) : (sortedDistPairs coords i).take kk ≠ [] := by
  have hlen : ((sortedDistPairs coords i).take kk).length =
      min kk coords.length := by
    rw [List.length_take, sortedDistPairs_length]
  intro he
  rw [he] at hlen
  simp only [List.length_nil] at hlen
  omega

theorem _haversine_lat_pos (lat2 : ℝ) (h1 : 0 < lat2) (h2 : lat2 < 360) :
    0 < _haversine_km 0 0 lat2 0 := by
  simp only [_haversine_km, radians]
  have hx : (0 : ℝ) < (lat2 - 0) * Real.pi / 180 / 2 := by
    have hpp := mul_pos h1 Real.pi_pos
    nlinarith
  have hxlt : (lat2 - 0) * Real.pi / 180 / 2 < Real.pi := by
    have hp := Real.pi_pos
    nlinarith
  have hsin : 0 < Real.sin ((lat2 - 0) * Real.pi / 180 / 2) :=
    Real.sin_pos_of_pos_of_lt_pi hx hxlt
  have hz : Real.sin ((0 - 0) * Real.pi / 180 / 2) = 0 := by
    norm_num
  have ha : 0 < Real.sin ((lat2 - 0) * Real.pi / 180 / 2) ^ 2 +
      Real.cos (0 * Real.pi / 180) * Real.cos (lat2 * Real.pi / 180) *
        Real.sin ((0 - 0) * Real.pi / 180 / 2) ^ 2 := by
    rw [hz]
    have := pow_pos hsin 2
    nlinarith
  have harc : 0 < Real.arcsin (Real.sqrt
      (Real.sin ((lat2 - 0) * Real.pi / 180 / 2) ^ 2 +
        Real.cos (0 * Real.pi / 180) * Real.cos (lat2 * Real.pi / 180) *
          Real.sin ((0 - 0) * Real.pi / 180 / 2) ^ 2)) := by
    rw [Real.arcsin_pos]
    exact Real.sqrt_pos.mpr ha
  exact mul_pos (by norm_num) harc

theorem coordsOf_length (pf : String → ℝ) (rows : List Row) (lat_col lon_col : String) :
    (coordsOf pf rows lat_col lon_col).length = rows.length := by
  unfold coordsOf
  rw [List.length_map]

theorem valuesOf_length (pf : String → ℝ) (rows : List Row) (value_col : String) :
    (valuesOf pf rows value_col).length = rows.length := by
  unfold valuesOf
  rw [List.length_map]

theorem wijSum_eq (coords : List (ℝ × ℝ)) (kk i : ℕ) :
    wijSum coords kk i = ((min kk coords.length : ℕ) : ℝ) := by
  unfold wijSum
  rw [neighbor_ids_card]

theorem denominator_ne_zero (coords : List (ℝ × ℝ)) (values : List ℝ) (kk i : ℕ)
    (hs : _sample_std values ≠ 0) (hk1 : 1 ≤ kk) (hlt : kk < coords.length) :
    denominator_i coords values kk i ≠ 0 := by
  unfold denominator_i
  rw [wijSum_eq, min_eq_left (le_of_lt hlt)]
  apply mul_ne_zero hs
  have hkr : (1 : ℝ) ≤ (kk : ℝ) := by exact_mod_cast hk1
  have hltr : (kk : ℝ) < (coords.length : ℝ) := by exact_mod_cast hlt
  have hn2 : (2 : ℝ) ≤ (coords.length : ℝ) := by
    have : 2 ≤ coords.length := by omega
    exact_mod_cast this
  have hterm : 0 < ((coords.length : ℝ) * (kk : ℝ) - (kk : ℝ) ^ 2) /
      ((coords.length : ℝ) - 1) := by
    apply div_pos
    · nlinarith
    · linarith
  exact (Real.sqrt_pos.mpr hterm).ne'

theorem denominator_eq_zero (coords : List (ℝ × ℝ)) (values : List ℝ) (kk i : ℕ)
    (hge : coords.length ≤ kk) : denominator_i coords values kk i = 0 := by
  unfold denominator_i
  rw [wijSum_eq, min_eq_right hge]
  have hterm : ((coords.length : ℝ) * ((coords.length : ℕ) : ℝ) -
      ((coords.length : ℕ) : ℝ) ^ 2) / ((coords.length : ℝ) - 1) = 0 := by
    have : (coords.length : ℝ) * ((coords.length : ℕ) : ℝ) -
        ((coords.length : ℕ) : ℝ) ^ 2 = 0 := by ring
    rw [this, zero_div]
  rw [hterm, Real.sqrt_zero, mul_zero]

theorem giStarLoop_ok (fmt : ℝ → String) (coords : List (ℝ × ℝ)) (values : List ℝ)
    (kk : ℕ) : ∀ (rs : List Row) (i0 : ℕ),
    (∀ m, m < rs.length → denominator_i coords values kk (i0 + m) ≠ 0) →
    ∃ out, giStarLoop fmt coords values kk i0 rs = Except.ok out ∧
      out.length = rs.length ∧
      ∀ m, m < rs.length →
        out.getD m [] = enrichRow fmt coords values kk (rs.getD m []) (i0 + m) := by
  intro rs
  induction rs with
  | nil =>
    intro i0 _
    exact ⟨[], rfl, rfl, fun m hm => absurd hm (by simp)⟩
  | cons r rs ih =>
    intro i0 h
    have h0 : denominator_i coords values kk i0 ≠ 0 := by
      have := h 0 (by simp)
      simpa using this
    obtain ⟨out, hout, hlen, hget⟩ := ih (i0 + 1) (fun m hm => by
      have := h (m + 1) (by simpa using Nat.succ_lt_succ hm)
      rw [Nat.add_comm m 1, ← Nat.add_assoc] at this
      exact this)
    refine ⟨enrichRow fmt coords values kk r i0 :: out, ?_, by simp [hlen], ?_⟩
    · unfold giStarLoop
      rw [if_neg h0, hout]
      rfl
    · intro m hm
      match m with
      | 0 => simp
      | Nat.succ m2 =>
        have hm2 : m2 < rs.length := by simpa using hm
        have := hget m2 hm2
        simp only [List.getD_cons_succ]
        rw [this]
        congr 1
        omega

theorem giStarLoop_ok_inv (fmt : ℝ → String) (coords : List (ℝ × ℝ))
    (values : List ℝ) (kk : ℕ) : ∀ (rs : List Row) (i0 : ℕ) (out : List Row),
    giStarLoop fmt coords values kk i0 rs = Except.ok out →
    out.length = rs.length ∧
    ∀ m, m < rs.length →
      out.getD m [] = enrichRow fmt coords values kk (rs.getD m []) (i0 + m) := by
  intro rs
  induction rs with
  | nil =>
    intro i0 out h
    have hout : out = [] := by
      have : (Except.ok [] : Except String (List Row)) = Except.ok out := h
      cases this
      rfl
    subst hout
    exact ⟨rfl, fun m hm => absurd hm (by simp)⟩
  | cons r rs ih =>
    intro i0 out h
    unfold giStarLoop at h
    by_cases hd : denominator_i coords values kk i0 = 0
    · rw [if_pos hd] at h
      cases h
    · rw [if_neg hd] at h
      cases hrec : giStarLoop fmt coords values kk (i0 + 1) rs with
      | error e => rw [hrec] at h; cases h
      | ok tl =>
        rw [hrec] at h
        have hout : out = enrichRow fmt coords values kk r i0 :: tl := by
          have : (Except.ok (enrichRow fmt coords values kk r i0 :: tl) :
              Except String (List Row)) = Except.ok out := h
          cases this
          rfl
        subst hout
        obtain ⟨hlen, hget⟩ := ih (i0 + 1) tl hrec
        refine ⟨by simp [hlen], ?_⟩
        intro m hm
        match m with
        | 0 => simp
        | Nat.succ m2 =>
          have hm2 : m2 < rs.length := by simpa using hm
          have := hget m2 hm2
          simp only [List.getD_cons_succ]
          rw [this]
          congr 1
          omega

theorem giStarLoop_err (fmt : ℝ → String) (coords : List (ℝ × ℝ)) (values : List ℝ)
    (kk i0 : ℕ) (r : Row) (rs : List Row)
    (h : denominator_i coords values kk i0 = 0) :
    giStarLoop fmt coords values kk i0 (r :: rs) =
      Except.error "Encountered zero denominator in Gi* computation" := by
  unfold giStarLoop
  rw [if_pos h]

theorem compute_eq_loop (pf : String → ℝ) (fmt : ℝ → String) (rows : List Row)
    (id_col lat_col lon_col value_col : String) (k_neighbors : ℤ)
    (hE : rows ≠ [])
    (hM : missingCols rows [id_col, lat_col, lon_col, value_col] = [])
    (hK : ¬k_neighbors < 1) (hN : ¬rows.length < 3)
    (hS : _sample_std (valuesOf pf rows value_col) ≠ 0) :
    compute_gi_star_rows pf fmt rows id_col lat_col lon_col value_col k_neighbors =
      giStarLoop fmt (coordsOf pf rows lat_col lon_col)
        (valuesOf pf rows value_col) (kkOf k_neighbors rows.length) 0 rows := by
  unfold compute_gi_star_rows
  rw [if_neg (by simpa [List.isEmpty_iff] using hE),
    if_neg (by simp [hM]), if_neg hK, if_neg hN, if_neg hS]

/-!  ### Claim theorems  -/

/-- C1 (amended): for validated parameters (`k_neighbors ≥ 1`, `n ≥ 3`) and
any point index `i`, the selected neighbor set has exactly
`min(k_neighbors + 1, n)` members, and every selected index precedes every
unselected one in the stable-sort order (strictly smaller haversine
distance, or equal distance and smaller original index). The set moreover
contains `i` itself whenever no other point lies at haversine distance 0
from `i`; with duplicate coordinates the stable sort can instead select
`min(k_neighbors + 1, n)` zero-distance indices smaller than `i`,
excluding `i` (see the counterexample), so the unconditional inclusion
stated by the claim fails. -/
theorem C1_neighbor_selection (coords : List (ℝ × ℝ)) (k_neighbors : ℤ) (i : ℕ)
    (hk : 1 ≤ k_neighbors) (hn : 3 ≤ coords.length) (hi : i < coords.length) :
    kkOf k_neighbors coords.length = min (k_neighbors + 1).toNat coords.length ∧
    (neighbor_ids coords (kkOf k_neighbors coords.length) i).card =
      kkOf k_neighbors coords.length ∧
    (∀ j ∈ neighbor_ids coords (kkOf k_neighbors coords.length) i,
      ∀ j2, j2 < coords.length →
        j2 ∉ neighbor_ids coords (kkOf k_neighbors coords.length) i →
        havAt coords i j < havAt coords i j2 ∨
        (havAt coords i j = havAt coords i j2 ∧ j < j2)) ∧
    ((∀ j, j < coords.length → j ≠ i → havAt coords i j ≠ 0) →
      i ∈ neighbor_ids coords (kkOf k_neighbors coords.length) i) := by
  have hkmin : kkOf k_neighbors coords.length =
      min (k_neighbors + 1).toNat coords.length := by
    unfold kkOf; omega
  have hkkn : kkOf k_neighbors coords.length ≤ coords.length := by
    unfold kkOf; omega
  have hkk2 : 1 ≤ kkOf k_neighbors coords.length := by
    unfold kkOf; omega
  refine ⟨hkmin, ?_, ?_, ?_⟩
  · rw [neighbor_ids_card]
    exact min_eq_left hkkn
  · intro j hj j2 hj2 hnotin
    have hjpair := (mem_neighbor_ids coords _ i j).mp hj
    have hj2L : (j2, havAt coords i j2) ∈ sortedDistPairs coords i :=
      (mem_sortedDistPairs coords i (j2, havAt coords i j2)).mpr ⟨hj2, rfl⟩
    have hj2take : (j2, havAt coords i j2) ∉
        (sortedDistPairs coords i).take (kkOf k_neighbors coords.length) :=
      fun h => hnotin ((mem_neighbor_ids coords _ i j2).mpr h)
    have hj2drop : (j2, havAt coords i j2) ∈
        (sortedDistPairs coords i).drop (kkOf k_neighbors coords.length) := by
      rw [← List.take_append_drop (kkOf k_neighbors coords.length)
        (sortedDistPairs coords i)] at hj2L
      rcases List.mem_append.mp hj2L with h | h
      · exact absurd h hj2take
      · exact h
    have hle := take_sorted_le_drop coords i (kkOf k_neighbors coords.length)
      _ hjpair _ hj2drop
    have hjne : j ≠ j2 := fun he => hnotin (he ▸ hj)
    rcases hle with h | ⟨he, hle⟩
    · exact Or.inl h
    · exact Or.inr ⟨he, lt_of_le_of_ne hle hjne⟩
  · intro hz
    apply (mem_neighbor_ids coords _ i i).mpr
    by_contra hnot
    have hpairL : (i, havAt coords i i) ∈ sortedDistPairs coords i :=
      (mem_sortedDistPairs coords i (i, havAt coords i i)).mpr ⟨hi, rfl⟩
    have hdrop : (i, havAt coords i i) ∈
        (sortedDistPairs coords i).drop (kkOf k_neighbors coords.length) := by
      rw [← List.take_append_drop (kkOf k_neighbors coords.length)
        (sortedDistPairs coords i)] at hpairL
      rcases List.mem_append.mp hpairL with h | h
      · exact absurd h hnot
      · exact h
    obtain ⟨a, ha⟩ := List.exists_mem_of_ne_nil _
      (take_kk_ne_nil coords i (kkOf k_neighbors coords.length) hkk2 (by omega))
    have hle := take_sorted_le_drop coords i (kkOf k_neighbors coords.length)
      a ha _ hdrop
    have haL : a ∈ sortedDistPairs coords i := List.mem_of_mem_take ha
    have haspec := (mem_sortedDistPairs coords i a).mp haL
    by_cases hai : a.1 = i
    · have hae : a = (i, havAt coords i i) := by
        rw [Prod.ext_iff]
        exact ⟨hai, by rw [haspec.2, hai]⟩
      exact hnot (hae ▸ ha)
    · have hpos : 0 < havAt coords i a.1 :=
        lt_of_le_of_ne (havAt_nonneg coords i a.1)
          (Ne.symm (hz a.1 haspec.1 hai))
      rcases hle with h | ⟨he, _⟩
      · rw [haspec.2, havAt_self] at h
        simp only at h
        linarith
      · rw [haspec.2, havAt_self] at he
        simp only at he
        linarith

/-- C1 witness: with three points at distinct latitudes and
`k_neighbors = 1`, point 0 is at positive distance from the others and its
own neighbor set contains it. -/
theorem C1_neighbor_selection_witness :
    0 ∈ neighbor_ids [((0 : ℝ), (0 : ℝ)), ((1 : ℝ), (0 : ℝ)), ((2 : ℝ), (0 : ℝ))]
      (kkOf 1 3) 0 := by
  have h := C1_neighbor_selection
    [((0 : ℝ), (0 : ℝ)), ((1 : ℝ), (0 : ℝ)), ((2 : ℝ), (0 : ℝ))] 1 0
    (by norm_num) (by norm_num) (by norm_num)
  apply h.2.2.2
  intro j hj hjne
  have hlen : ([((0 : ℝ), (0 : ℝ)), ((1 : ℝ), (0 : ℝ)),
      ((2 : ℝ), (0 : ℝ))] : List (ℝ × ℝ)).length = 3 := rfl
  rw [hlen] at hj
  interval_cases j
  · exact absurd rfl hjne
  · have he : havAt [((0 : ℝ), (0 : ℝ)), ((1 : ℝ), (0 : ℝ)), ((2 : ℝ), (0 : ℝ))] 0 1 =
        _haversine_km 0 0 1 0 := rfl
    rw [he]
    exact (_haversine_lat_pos 1 (by norm_num) (by norm_num)).ne'
  · have he : havAt [((0 : ℝ), (0 : ℝ)), ((1 : ℝ), (0 : ℝ)), ((2 : ℝ), (0 : ℝ))] 0 2 =
        _haversine_km 0 0 2 0 := rfl
    rw [he]
    exact (_haversine_lat_pos 2 (by norm_num) (by norm_num)).ne'

/-- C3: `compute_gi_star_rows` fails with a validation error — producing no
output at all (the `Except.error` result carries no partial per-row
results) — whenever the input is empty, a required column is missing from
the first row's keys, `k_neighbors < 1`, fewer than 3 rows are supplied,
or the value column has zero sample variance. -/
theorem C3_validation_errors (pf : String → ℝ) (fmt : ℝ → String) (rows : List Row)
    (id_col lat_col lon_col value_col : String) (k_neighbors : ℤ)
    (h : rows = [] ∨
      missingCols rows [id_col, lat_col, lon_col, value_col] ≠ [] ∨
      k_neighbors < 1 ∨ rows.length < 3 ∨
      _sample_std (valuesOf pf rows value_col) = 0) :
    ∃ e, compute_gi_star_rows pf fmt rows id_col lat_col lon_col value_col
      k_neighbors = Except.error e := by
  unfold compute_gi_star_rows
  by_cases h1 : rows.isEmpty = true
  · exact ⟨_, by rw [if_pos h1]⟩
  · rw [if_neg h1]
    by_cases h2 : missingCols rows [id_col, lat_col, lon_col, value_col] ≠ []
    · exact ⟨_, by rw [if_pos h2]⟩
    · rw [if_neg h2]
      by_cases h3 : k_neighbors < 1
      · exact ⟨_, by rw [if_pos h3]⟩
      · rw [if_neg h3]
        by_cases h4 : rows.length < 3
        · exact ⟨_, by rw [if_pos h4]⟩
        · rw [if_neg h4]
          by_cases h5 : _sample_std (valuesOf pf rows value_col) = 0
          · exact ⟨_, by rw [if_pos h5]⟩
          · exfalso
            rcases h with h | h | h | h | h
            · exact h1 (by simp [h])
            · exact h2 h
            · exact h3 h
            · exact h4 h
            · exact h5 h

/-- C3 witness: the empty input aborts with an error. -/
theorem C3_validation_errors_witness :
    ∃ e, compute_gi_star_rows examplePf exampleFmt [] "id" "latitude" "longitude"
      "value" 8 = Except.error e :=
  C3_validation_errors examplePf exampleFmt [] "id" "latitude" "longitude"
    "value" 8 (Or.inl rfl)

/-- C2: `classify_significance` returns exactly one of the 7 labels, chosen
by the p-value thresholds in priority order with the sign of z selecting
Hot vs Cold, and consequently a positive z yields a Hot label or
"Not Significant" while a nonpositive z yields a Cold label or
"Not Significant". -/
theorem C2_classify_significance (z p : ℝ) :
    classify_significance z p ∈ labels7 ∧
    (p ≤ 0.01 →
      classify_significance z p = if z > 0 then "Hot Spot 99%" else "Cold Spot 99%") ∧
    (¬p ≤ 0.01 → p ≤ 0.05 →
      classify_significance z p = if z > 0 then "Hot Spot 95%" else "Cold Spot 95%") ∧
    (¬p ≤ 0.01 → ¬p ≤ 0.05 → p ≤ 0.10 →
      classify_significance z p = if z > 0 then "Hot Spot 90%" else "Cold Spot 90%") ∧
    (¬p ≤ 0.01 → ¬p ≤ 0.05 → ¬p ≤ 0.10 →
      classify_significance z p = "Not Significant") ∧
    (z > 0 → classify_significance z p ∈
      ["Hot Spot 99%", "Hot Spot 95%", "Hot Spot 90%", "Not Significant"]) ∧
    (z ≤ 0 → classify_significance z p ∈
      ["Cold Spot 99%", "Cold Spot 95%", "Cold Spot 90%", "Not Significant"]) := by
  refine ⟨classify_mem_labels7 z p, ?_, ?_, ?_, ?_, ?_, ?_⟩ <;>
    · unfold classify_significance
      split_ifs <;> simp_all

/-- C2 witness: at `z = 1`, `p = 1/200` the classifier yields
"Hot Spot 99%". -/
theorem C2_classify_significance_witness :
    classify_significance (1 : ℝ) (1 / 200) = "Hot Spot 99%" := by
  have h := (C2_classify_significance (1 : ℝ) (1 / 200)).2.1 (by norm_num)
  simpa using h

/-- C10: whenever the straddle test of `_point_in_ring` succeeds the edge's
y-span is non-zero, so the `1e-12` epsilon substitute denominator is never
used: the ray-casting function coincides with the variant that always
divides by the true y-span, and in particular every division it performs
is well-defined and the function is total. -/
theorem C10_epsilon_never_used (point : ℚ × ℚ) (ring : List (ℚ × ℚ)) :
    _point_in_ring point ring = point_in_ring_exact point ring := by
  unfold _point_in_ring point_in_ring_exact
  have hstep : ringStep point = ringStepExact point :=
    funext fun inside => funext fun e => ringStep_eq_exact point inside e
  rw [hstep]

/-- C5: for well-formed geometries, containment holds exactly when the
geometry is a Polygon whose outer ring contains the point (ray-casting
parity) and none of whose hole rings does, or a MultiPolygon one of whose
constituent ring-sets contains it by the same rule; any other geometry
type never contains a point (no error is raised). -/
theorem C5_point_in_geometry (point : ℚ × ℚ) (g : Geometry) (hwf : g.wellFormed) :
    (_point_in_geometry point g = true ↔
      (∃ outer holes, g = Geometry.Polygon (outer :: holes) ∧
        _point_in_ring point outer = true ∧
        ∀ hole ∈ holes, _point_in_ring point hole = false) ∨
      (∃ parts, g = Geometry.MultiPolygon parts ∧
        ∃ part ∈ parts, ∃ outer holes, part = outer :: holes ∧
          _point_in_ring point outer = true ∧
          ∀ hole ∈ holes, _point_in_ring point hole = false)) ∧
    (∀ gtype : String, _point_in_geometry point (Geometry.Other gtype) = false) := by
  refine ⟨?_, fun _ => rfl⟩
  cases g with
  | Polygon coords =>
    match coords, hwf with
    | outer :: holes, _ =>
      simp only [_point_in_geometry, _point_in_polygon]
      constructor
      · intro h
        rcases Bool.and_eq_true_iff.mp h with ⟨h1, h2⟩
        refine Or.inl ⟨outer, holes, rfl, h1, fun hole hh => ?_⟩
        have := (List.all_eq_true.mp h2) hole hh
        simpa using this
      · rintro (⟨o, hs, he, h1, h2⟩ | ⟨parts, he, _⟩)
        · obtain ⟨rfl, rfl⟩ : outer = o ∧ holes = hs := by
            simp only [Geometry.Polygon.injEq, List.cons.injEq] at he
            exact ⟨he.1, he.2⟩
          refine Bool.and_eq_true_iff.mpr ⟨h1, List.all_eq_true.mpr fun hole hh => ?_⟩
          simp [h2 hole hh]
        · exact absurd he (by simp)
  | MultiPolygon parts =>
    simp only [_point_in_geometry, List.any_eq_true]
    constructor
    · rintro ⟨part, hp, hc⟩
      have hne : part ≠ [] := hwf part hp
      match part, hne, hc with
      | outer :: holes, _, hc =>
        simp only [_point_in_polygon] at hc
        rcases Bool.and_eq_true_iff.mp hc with ⟨h1, h2⟩
        refine Or.inr ⟨parts, rfl, outer :: holes, hp, outer, holes, rfl, h1, ?_⟩
        intro hole hh
        have := (List.all_eq_true.mp h2) hole hh
        simpa using this
    · rintro (⟨o, hs, he, _⟩ | ⟨parts2, he, part, hp, outer, holes, hpe, h1, h2⟩)
      · exact absurd he (by simp)
      · obtain rfl : parts = parts2 := by
          simp only [Geometry.MultiPolygon.injEq] at he
          exact he
        refine ⟨part, hp, ?_⟩
        subst hpe
        simp only [_point_in_polygon]
        refine Bool.and_eq_true_iff.mpr ⟨h1, List.all_eq_true.mpr fun hole hh => ?_⟩
        simp [h2 hole hh]
  | Other gtype =>
    simp only [_point_in_geometry]
    constructor
    · intro h; cases h
    · rintro (⟨o, hs, he, _⟩ | ⟨parts, he, _⟩) <;> exact absurd he (by simp)

/-- C5 witness: a point strictly inside a simple square `Polygon` with no
holes is contained. -/
theorem C5_point_in_geometry_witness :
    _point_in_geometry (5, 5) (Geometry.Polygon [[(0, 0), (10, 0), (10, 10), (0, 10)]]) = true := by
  have h := C5_point_in_geometry (5, 5)
    (Geometry.Polygon [[(0, 0), (10, 0), (10, 10), (0, 10)]]) (by simp [Geometry.wellFormed])
  refine h.1.mpr (Or.inl ⟨[(0, 0), (10, 0), (10, 10), (0, 10)], [], rfl, ?_, by simp⟩)
  norm_num [_point_in_ring, ringStep, List.rotate, List.zip, List.zipWith, List.foldl]

/-- C6: in every run of `join_points_to_geojson` whose joined points all
carry one of the 7 classification labels in `gi_bin`, every summary row's
`point_count` equals the sum of the six hotspot/coldspot tier counters plus
the number of the group's points labeled "Not Significant". -/
theorem C6_summary_partition (pq : String → ℚ) (point_rows : List Row)
    (features : List Feature) (pc lat_col lon_col : String)
    (hlab : ∀ row ∈ (join_points_to_geojson pq point_rows features pc lat_col lon_col).1,
      getS row "gi_bin" ∈ labels7) :
    ∀ S ∈ (join_points_to_geojson pq point_rows features pc lat_col lon_col).2,
      S.point_count =
        S.hotspot_99 + S.hotspot_95 + S.hotspot_90 +
        S.coldspot_99 + S.coldspot_95 + S.coldspot_90 +
        ((groupOf pc S.pid
            (join_points_to_geojson pq point_rows features pc lat_col lon_col).1).filter
          (fun r => getS r "gi_bin" = "Not Significant")).length := by
  intro S hS
  obtain ⟨a, ha, hfin⟩ :=
    summary_of_mem pq point_rows features pc lat_col lon_col S hS
  have hchar := buildMap_char pq pc _ a ha
  set joined := (join_points_to_geojson pq point_rows features pc lat_col lon_col).1
    with hj
  set grp := groupOf pc a.pid joined with hg
  have hSpid : S.pid = a.pid := by rw [hfin]; rfl
  have hpc : S.point_count = a.point_count := by rw [hfin]; rfl
  have h99 : S.hotspot_99 = a.hotspot_99 := by rw [hfin]; rfl
  have h95 : S.hotspot_95 = a.hotspot_95 := by rw [hfin]; rfl
  have h90 : S.hotspot_90 = a.hotspot_90 := by rw [hfin]; rfl
  have c99 : S.coldspot_99 = a.coldspot_99 := by rw [hfin]; rfl
  have c95 : S.coldspot_95 = a.coldspot_95 := by rw [hfin]; rfl
  have c90 : S.coldspot_90 = a.coldspot_90 := by rw [hfin]; rfl
  have hcount : a.point_count = grp.length := by
    rw [hchar]
    unfold aggOfGroup
    rw [foldGroup_point_count]
    simp [freshAgg]
  have hh99 : a.hotspot_99 =
      (grp.filter (fun r => getS r "gi_bin" = "Hot Spot 99%")).length := by
    rw [hchar]
    unfold aggOfGroup
    rw [foldGroup_count_label pq "Hot Spot 99%" Agg.hotspot_99 (fun r x => rfl)]
    simp [freshAgg]
  have hh95 : a.hotspot_95 =
      (grp.filter (fun r => getS r "gi_bin" = "Hot Spot 95%")).length := by
    rw [hchar]
    unfold aggOfGroup
    rw [foldGroup_count_label pq "Hot Spot 95%" Agg.hotspot_95 (fun r x => rfl)]
    simp [freshAgg]
  have hh90 : a.hotspot_90 =
      (grp.filter (fun r => getS r "gi_bin" = "Hot Spot 90%")).length := by
    rw [hchar]
    unfold aggOfGroup
    rw [foldGroup_count_label pq "Hot Spot 90%" Agg.hotspot_90 (fun r x => rfl)]
    simp [freshAgg]
  have hc99 : a.coldspot_99 =
      (grp.filter (fun r => getS r "gi_bin" = "Cold Spot 99%")).length := by
    rw [hchar]
    unfold aggOfGroup
    rw [foldGroup_count_label pq "Cold Spot 99%" Agg.coldspot_99 (fun r x => rfl)]
    simp [freshAgg]
  have hc95 : a.coldspot_95 =
      (grp.filter (fun r => getS r "gi_bin" = "Cold Spot 95%")).length := by
    rw [hchar]
    unfold aggOfGroup
    rw [foldGroup_count_label pq "Cold Spot 95%" Agg.coldspot_95 (fun r x => rfl)]
    simp [freshAgg]
  have hc90 : a.coldspot_90 =
      (grp.filter (fun r => getS r "gi_bin" = "Cold Spot 90%")).length := by
    rw [hchar]
    unfold aggOfGroup
    rw [foldGroup_count_label pq "Cold Spot 90%" Agg.coldspot_90 (fun r x => rfl)]
    simp [freshAgg]
  have hpart := length_eq_sum_filter7 grp
    (fun r hr => hlab r (groupOf_sub pc a.pid joined r hr))
  rw [hpc, h99, h95, h90, c99, c95, c90, hSpid, hcount,
    hh99, hh95, hh90, hc99, hc95, hc90, ← hg]
  omega

theorem exampleJoin_joined_eq :
    exampleJoin.1 = [exampleRowNS ++ [("gid", "")]] := by
  simp only [exampleJoin, join_points_to_geojson, joinRows, firstMatch,
    List.map_cons, List.map_nil]
  norm_num [exampleRowNS, setV]
  decide

theorem exampleJoin_labels :
    ∀ row ∈ exampleJoin.1, getS row "gi_bin" ∈ labels7 := by
  intro row hrow
  rw [exampleJoin_joined_eq] at hrow
  simp only [List.mem_cons, List.not_mem_nil, or_false] at hrow
  subst hrow
  simp [exampleRowNS, getS, getV, labels7]

theorem exampleJoin_summary_mem : exampleSummaryRow ∈ exampleJoin.2 := by
  have hj : exampleJoin.2 =
      (buildMap examplePq "gid" exampleJoin.1).map finalizeAgg := rfl
  rw [hj, exampleJoin_joined_eq]
  norm_num [buildMap, insertRow, updateAgg, freshAgg, finalizeAgg,
    exampleRowNS, examplePq, exampleSummaryRow, getS, getV]
  decide

/-- C6 witness: a single "Not Significant" point matched by no feature
yields a summary row with `point_count 1 = 0+0+0+0+0+0+1`. -/
theorem C6_summary_partition_witness :
    exampleSummaryRow.point_count =
      exampleSummaryRow.hotspot_99 + exampleSummaryRow.hotspot_95 +
      exampleSummaryRow.hotspot_90 + exampleSummaryRow.coldspot_99 +
      exampleSummaryRow.coldspot_95 + exampleSummaryRow.coldspot_90 +
      ((groupOf "gid" exampleSummaryRow.pid exampleJoin.1).filter
        (fun r => getS r "gi_bin" = "Not Significant")).length :=
  C6_summary_partition examplePq [exampleRowNS] [] "gid" "latitude" "longitude"
    exampleJoin_labels exampleSummaryRow exampleJoin_summary_mem

theorem exampleRows3_len : exampleRows3.length = 3 := rfl

theorem exampleRows8_len : exampleRows8.length = 3 := rfl

theorem exampleValues_eq : valuesOf examplePf exampleRows3 "value" = [0, 1, 2] := by
  simp [valuesOf, exampleRows3, getS, getV, examplePf]

theorem sample_std_012 : _sample_std [(0 : ℝ), 1, 2] = 1 := by
  unfold _sample_std _mean
  have hsum : (([(0 : ℝ), 1, 2].map
      (fun v => (v - [(0 : ℝ), 1, 2].sum / ([(0 : ℝ), 1, 2].length : ℝ)) ^ 2)).sum /
      (([(0 : ℝ), 1, 2].length : ℝ) - 1)) = 1 := by
    norm_num
  rw [hsum, Real.sqrt_one]

theorem exampleStd_ne_zero :
    _sample_std (valuesOf examplePf exampleRows3 "value") ≠ 0 := by
  rw [exampleValues_eq, sample_std_012]
  norm_num

/-- C9: for inputs passing every validation check, the "zero denominator"
error is raised exactly when `k_neighbors ≥ n - 1`: then the weight sum is
`n` and the denominator term `(n*wSum - wSum²)/(n-1)` vanishes for every
point, while for `k_neighbors ≤ n - 2` the denominator is strictly
positive and the error branch is unreachable. -/
theorem C9_zero_denominator_iff (pf : String → ℝ) (fmt : ℝ → String)
    (rows : List Row) (id_col lat_col lon_col value_col : String)
    (k_neighbors : ℤ) (hE : rows ≠ [])
    (hM : missingCols rows [id_col, lat_col, lon_col, value_col] = [])
    (hK : 1 ≤ k_neighbors) (hN : 3 ≤ rows.length)
    (hS : _sample_std (valuesOf pf rows value_col) ≠ 0) :
    (compute_gi_star_rows pf fmt rows id_col lat_col lon_col value_col k_neighbors =
      Except.error "Encountered zero denominator in Gi* computation") ↔
      (rows.length : ℤ) - 1 ≤ k_neighbors := by
  rw [compute_eq_loop pf fmt rows id_col lat_col lon_col value_col k_neighbors
    hE hM (by omega) (by omega) hS]
  constructor
  · intro herr
    by_contra hlt
    push_neg at hlt
    have hkk1 : 1 ≤ kkOf k_neighbors rows.length := by unfold kkOf; omega
    have hkklt : kkOf k_neighbors rows.length < rows.length := by unfold kkOf; omega
    obtain ⟨out, hout, _, _⟩ := giStarLoop_ok fmt
      (coordsOf pf rows lat_col lon_col) (valuesOf pf rows value_col)
      (kkOf k_neighbors rows.length) rows 0 (fun m hm =>
        denominator_ne_zero _ _ _ _ hS hkk1
          (by rw [coordsOf_length]; exact hkklt))
    rw [hout] at herr
    cases herr
  · intro hge
    have hkk : rows.length ≤ kkOf k_neighbors rows.length := by unfold kkOf; omega
    cases rows with
    | nil => exact absurd rfl hE
    | cons r rs =>
      apply giStarLoop_err
      apply denominator_eq_zero
      rw [coordsOf_length]
      exact hkk

/-- C9 witness: 3 points with `k_neighbors = 2 = n - 1` raise the zero
denominator error. -/
theorem C9_zero_denominator_iff_witness :
    compute_gi_star_rows examplePf exampleFmt exampleRows3 "id" "latitude"
      "longitude" "value" 2 =
      Except.error "Encountered zero denominator in Gi* computation" := by
  have h := C9_zero_denominator_iff examplePf exampleFmt exampleRows3 "id"
    "latitude" "longitude" "value" 2 (by simp [exampleRows3])
    (by norm_num [missingCols, rowKeys, exampleRows3]) (by norm_num)
    (by norm_num [exampleRows3]) exampleStd_ne_zero
  exact h.mpr (by norm_num [exampleRows3])

theorem exampleValues8_eq : valuesOf examplePf exampleRows8 "value" = [0, 1, 2] := by
  simp [valuesOf, exampleRows8, getS, getV, examplePf]

theorem exampleStd8_ne_zero :
    _sample_std (valuesOf examplePf exampleRows8 "value") ≠ 0 := by
  rw [exampleValues8_eq, sample_std_012]
  norm_num

theorem classify_ne_x (z p : ℝ) : classify_significance z p ≠ "x" := by
  have h := classify_mem_labels7 z p
  intro he
  rw [he] at h
  simp [labels7] at h

/-- C8 (amended): on every successful run, each output row preserves every
input field whose key is not one of the three result columns, carries the
three computed fields `gi_star_zscore`, `gi_star_pvalue`, `gi_bin` (the two
numeric ones formatted, the bin classifying the same z and p), and has no
other keys — so the three result fields are appended, except that an input
field named like one of them is overwritten rather than preserved (see the
counterexample). -/
theorem C8_row_fields (pf : String → ℝ) (fmt : ℝ → String) (rows : List Row)
    (id_col lat_col lon_col value_col : String) (k_neighbors : ℤ) (out : List Row)
    (h : compute_gi_star_rows pf fmt rows id_col lat_col lon_col value_col
      k_neighbors = Except.ok out) :
    out.length = rows.length ∧
    ∀ i, i < rows.length →
      (∀ key, key ≠ "gi_star_zscore" → key ≠ "gi_star_pvalue" → key ≠ "gi_bin" →
        getV (out.getD i []) key = getV (rows.getD i []) key) ∧
      (∃ z p : ℝ, getV (out.getD i []) "gi_star_zscore" = some (fmt z) ∧
        getV (out.getD i []) "gi_star_pvalue" = some (fmt p) ∧
        getV (out.getD i []) "gi_bin" = some (classify_significance z p)) ∧
      (∀ key, (getV (out.getD i []) key).isSome ↔
        ((getV (rows.getD i []) key).isSome ∨ key = "gi_star_zscore" ∨
          key = "gi_star_pvalue" ∨ key = "gi_bin")) := by
  unfold compute_gi_star_rows at h
  split_ifs at h with h1 h2 h3 h4 h5
  obtain ⟨hlen, hget⟩ := giStarLoop_ok_inv fmt
    (coordsOf pf rows lat_col lon_col) (valuesOf pf rows value_col)
    (kkOf k_neighbors rows.length) rows 0 out h
  refine ⟨hlen, ?_⟩
  intro i hi
  have ho : out.getD i [] = enrichRow fmt (coordsOf pf rows lat_col lon_col)
      (valuesOf pf rows value_col) (kkOf k_neighbors rows.length)
      (rows.getD i []) i := by
    have := hget i hi
    simpa using this
  rw [ho]
  unfold enrichRow
  refine ⟨?_, ?_, ?_⟩
  · intro key hz hp hb
    rw [getV_setV_ne _ _ _ _ hb, getV_setV_ne _ _ _ _ hp, getV_setV_ne _ _ _ _ hz]
  · refine ⟨z_i (coordsOf pf rows lat_col lon_col) (valuesOf pf rows value_col)
        (kkOf k_neighbors rows.length) i,
      p_i (coordsOf pf rows lat_col lon_col) (valuesOf pf rows value_col)
        (kkOf k_neighbors rows.length) i, ?_, ?_, ?_⟩
    · rw [getV_setV_ne _ _ _ _ (by decide), getV_setV_ne _ _ _ _ (by decide),
        getV_setV_self]
    · rw [getV_setV_ne _ _ _ _ (by decide), getV_setV_self]
    · rw [getV_setV_self]
  · intro key
    rw [getV_setV_isSome, getV_setV_isSome, getV_setV_isSome]
    tauto

/-- C8 witness: a successful concrete run (3 points, `k_neighbors = 1`). -/
theorem C8_row_fields_witness :
    ∃ out, compute_gi_star_rows examplePf exampleFmt exampleRows3 "id" "latitude"
        "longitude" "value" 1 = Except.ok out ∧
      out.length = exampleRows3.length ∧
      getV (out.getD 0 []) "id" = getV (exampleRows3.getD 0 []) "id" := by
  have hloop := compute_eq_loop examplePf exampleFmt exampleRows3 "id" "latitude"
    "longitude" "value" 1 (by simp [exampleRows3])
    (by norm_num [missingCols, rowKeys, exampleRows3]) (by norm_num)
    (by norm_num [exampleRows3]) exampleStd_ne_zero
  have hkk1 : 1 ≤ kkOf 1 exampleRows3.length := by
    rw [exampleRows3_len]; unfold kkOf; omega
  have hkklt : kkOf 1 exampleRows3.length <
      (coordsOf examplePf exampleRows3 "latitude" "longitude").length := by
    rw [coordsOf_length, exampleRows3_len]; unfold kkOf; omega
  obtain ⟨out, hout, hlen, hget⟩ := giStarLoop_ok exampleFmt
    (coordsOf examplePf exampleRows3 "latitude" "longitude")
    (valuesOf examplePf exampleRows3 "value") (kkOf 1 exampleRows3.length)
    exampleRows3 0 (fun m hm =>
      denominator_ne_zero _ _ _ _ exampleStd_ne_zero hkk1 hkklt)
  have hcomp : compute_gi_star_rows examplePf exampleFmt exampleRows3 "id"
      "latitude" "longitude" "value" 1 = Except.ok out := by
    rw [hloop, hout]
  obtain ⟨hl2, hall⟩ := C8_row_fields examplePf exampleFmt exampleRows3 "id"
    "latitude" "longitude" "value" 1 out hcomp
  refine ⟨out, hcomp, hl2, ?_⟩
  exact (hall 0 (by norm_num [exampleRows3])).1 "id" (by decide) (by decide) (by decide)

/-- C8 counterexample: an input row that already carries a `gi_bin` column
(value "x") has that field overwritten by the computed classification, so
not every pre-existing field survives unchanged. -/
theorem C8_counterexample :
    ∃ out, compute_gi_star_rows examplePf exampleFmt exampleRows8 "id" "latitude"
        "longitude" "value" 1 = Except.ok out ∧
      getV (out.getD 0 []) "gi_bin" ≠ getV (exampleRows8.getD 0 []) "gi_bin" := by
  have hloop := compute_eq_loop examplePf exampleFmt exampleRows8 "id" "latitude"
    "longitude" "value" 1 (by simp [exampleRows8])
    (by norm_num [missingCols, rowKeys, exampleRows8]) (by norm_num)
    (by norm_num [exampleRows8]) exampleStd8_ne_zero
  have hkk1 : 1 ≤ kkOf 1 exampleRows8.length := by
    rw [exampleRows8_len]; unfold kkOf; omega
  have hkklt : kkOf 1 exampleRows8.length <
      (coordsOf examplePf exampleRows8 "latitude" "longitude").length := by
    rw [coordsOf_length, exampleRows8_len]; unfold kkOf; omega
  obtain ⟨out, hout, hlen, hget⟩ := giStarLoop_ok exampleFmt
    (coordsOf examplePf exampleRows8 "latitude" "longitude")
    (valuesOf examplePf exampleRows8 "value") (kkOf 1 exampleRows8.length)
    exampleRows8 0 (fun m hm =>
      denominator_ne_zero _ _ _ _ exampleStd8_ne_zero hkk1 hkklt)
  refine ⟨out, by rw [hloop, hout], ?_⟩
  have ho : out.getD 0 [] = enrichRow exampleFmt
      (coordsOf examplePf exampleRows8 "latitude" "longitude")
      (valuesOf examplePf exampleRows8 "value") (kkOf 1 exampleRows8.length)
      (exampleRows8.getD 0 []) 0 := by
    have := hget 0 (by norm_num [exampleRows8])
    simpa using this
  rw [ho]
  unfold enrichRow
  rw [getV_setV_self]
  have hx : getV (exampleRows8.getD 0 []) "gi_bin" = some "x" := by
    simp [exampleRows8, getV]
  rw [hx]
  intro he
  exact classify_ne_x _ _ (Option.some.inj he)

/-- C1 counterexample: three points at identical coordinates with values
0, 1, 2 and `k_neighbors = 1` pass validation and the computation succeeds,
yet the neighbor set selected for point 2 is `{0, 1}` (the stable sort
keeps the two zero-distance points of smaller index), excluding point 2
itself. -/
theorem C1_counterexample :
    (∃ out, compute_gi_star_rows examplePf exampleFmt exampleRows3 "id" "latitude"
        "longitude" "value" 1 = Except.ok out) ∧
      2 ∉ neighbor_ids (coordsOf examplePf exampleRows3 "latitude" "longitude")
        (kkOf 1 exampleRows3.length) 2 := by
  constructor
  · have hloop := compute_eq_loop examplePf exampleFmt exampleRows3 "id" "latitude"
      "longitude" "value" 1 (by simp [exampleRows3])
      (by norm_num [missingCols, rowKeys, exampleRows3]) (by norm_num)
      (by norm_num [exampleRows3]) exampleStd_ne_zero
    have hkk1 : 1 ≤ kkOf 1 exampleRows3.length := by
      rw [exampleRows3_len]; unfold kkOf; omega
    have hkklt : kkOf 1 exampleRows3.length <
        (coordsOf examplePf exampleRows3 "latitude" "longitude").length := by
      rw [coordsOf_length, exampleRows3_len]; unfold kkOf; omega
    obtain ⟨out, hout, _, _⟩ := giStarLoop_ok exampleFmt
      (coordsOf examplePf exampleRows3 "latitude" "longitude")
      (valuesOf examplePf exampleRows3 "value") (kkOf 1 exampleRows3.length)
      exampleRows3 0 (fun m hm =>
        denominator_ne_zero _ _ _ _ exampleStd_ne_zero hkk1 hkklt)
    exact ⟨out, by rw [hloop, hout]⟩
  · have hcoords : coordsOf examplePf exampleRows3 "latitude" "longitude" =
        [((0 : ℝ), (0 : ℝ)), (0, 0), (0, 0)] := by
      simp [coordsOf, exampleRows3, getS, getV, examplePf]
    have hkk : kkOf 1 exampleRows3.length = 2 := by
      rw [exampleRows3_len]; unfold kkOf; omega
    rw [hcoords, hkk]
    have hpairs : distPairs [((0 : ℝ), (0 : ℝ)), (0, 0), (0, 0)] 2 =
        [(0, 0), (1, 0), (2, 0)] := by
      unfold distPairs
      have hr : List.range ([((0 : ℝ), (0 : ℝ)), (0, 0), (0, 0)]).length =
          [0, 1, 2] := rfl
      rw [hr]
      have hv : ∀ j : ℕ, havAt [((0 : ℝ), (0 : ℝ)), (0, 0), (0, 0)] 2 j =
          _haversine_km 0 0 ([((0 : ℝ), (0 : ℝ)), (0, 0), (0, 0)].getD j (0, 0)).1
            ([((0 : ℝ), (0 : ℝ)), (0, 0), (0, 0)].getD j (0, 0)).2 := fun j => rfl
      simp only [List.map_cons, List.map_nil, hv]
      norm_num [_haversine_self]
    have h01 : sortLE ((0 : ℕ), (0 : ℝ)) (1, 0) := Or.inr ⟨rfl, by norm_num⟩
    have h12 : sortLE ((1 : ℕ), (0 : ℝ)) (2, 0) := Or.inr ⟨rfl, by norm_num⟩
    have e1 : List.orderedInsert sortLE ((2 : ℕ), (0 : ℝ)) [] = [(2, 0)] := rfl
    have e2 : List.orderedInsert sortLE ((1 : ℕ), (0 : ℝ)) [(2, 0)] =
        [(1, 0), (2, 0)] := by
      unfold List.orderedInsert
      rw [if_pos h12]
    have e3 : List.orderedInsert sortLE ((0 : ℕ), (0 : ℝ)) [(1, 0), (2, 0)] =
        [(0, 0), (1, 0), (2, 0)] := by
      unfold List.orderedInsert
      rw [if_pos h01]
    have hsorted : sortedDistPairs [((0 : ℝ), (0 : ℝ)), (0, 0), (0, 0)] 2 =
        [(0, 0), (1, 0), (2, 0)] := by
      unfold sortedDistPairs
      rw [hpairs]
      simp only [List.insertionSort]
      rw [e1, e2, e3]
    unfold neighbor_ids
    rw [hsorted]
    simp

/-- C4: each point is assigned the id of the first feature in iteration
order that both carries the polygon-id property and whose geometry contains
the point (the `List.find?` characterization of the stop-at-first-match
loop), and a point contained by no eligible feature gets the empty-string
sentinel id while still contributing a summary group under that key. The
well-formedness hypothesis restricts to inputs on which the source code is
total (it indexes `polygon_coords[0]`). -/
theorem C4_first_match_wins (pq : String → ℚ) (point_rows : List Row)
    (features : List Feature) (pc lat_col lon_col : String) (i : ℕ)
    (hi : i < point_rows.length)
    (hwf : ∀ f ∈ features, f.geometry.wellFormed) :
    getS ((join_points_to_geojson pq point_rows features pc lat_col lon_col).1.getD i []) pc =
      firstMatchSpec pc
        (pq (getS (point_rows.getD i []) lon_col),
         pq (getS (point_rows.getD i []) lat_col)) features ∧
    ((∀ f ∈ features, ¬matchPred pc
        (pq (getS (point_rows.getD i []) lon_col),
         pq (getS (point_rows.getD i []) lat_col)) f = true) →
      getS ((join_points_to_geojson pq point_rows features pc lat_col lon_col).1.getD i [])
          pc = "" ∧
      ∃ S ∈ (join_points_to_geojson pq point_rows features pc lat_col lon_col).2,
        S.pid = "") := by
  have hj1 : (join_points_to_geojson pq point_rows features pc lat_col lon_col).1 =
      joinRows pq pc lat_col lon_col features point_rows := rfl
  have hval : getS ((join_points_to_geojson pq point_rows features pc
      lat_col lon_col).1.getD i []) pc =
      firstMatch pc (pq (getS (point_rows.getD i []) lon_col),
        pq (getS (point_rows.getD i []) lat_col)) features := by
    rw [hj1, joined_getD pq point_rows features pc lat_col lon_col i hi]
    unfold getS
    rw [getV_setV_self]
    rfl
  constructor
  · rw [hval, firstMatch_eq_spec]
  · intro hnone
    have hspec : firstMatchSpec pc
        (pq (getS (point_rows.getD i []) lon_col),
         pq (getS (point_rows.getD i []) lat_col)) features = "" := by
      unfold firstMatchSpec
      rw [List.find?_eq_none.mpr (fun f hf => by simpa using hnone f hf)]
    have hempty : getS ((join_points_to_geojson pq point_rows features pc
        lat_col lon_col).1.getD i []) pc = "" := by
      rw [hval, firstMatch_eq_spec, hspec]
    refine ⟨hempty, ?_⟩
    have hlen : i < (join_points_to_geojson pq point_rows features pc
        lat_col lon_col).1.length := by
      rw [hj1]
      unfold joinRows
      rw [List.length_map]
      exact hi
    have hmem : (join_points_to_geojson pq point_rows features pc
        lat_col lon_col).1.getD i [] ∈
        (join_points_to_geojson pq point_rows features pc lat_col lon_col).1 := by
      rw [List.getD_eq_getElem?_getD, List.getElem?_eq_getElem hlen]
      exact List.getElem_mem hlen
    obtain ⟨a, ha, hap⟩ := buildMap_pid_complete pq pc
      (join_points_to_geojson pq point_rows features pc lat_col lon_col).1 [] _ hmem
    refine ⟨finalizeAgg a, List.mem_map.mpr ⟨a, ha, rfl⟩, ?_⟩
    show a.pid = ""
    rw [hap, hempty]

/-- C4 witness: one point at (5,5) inside a square feature carrying id "A",
and the theorem instantiated at index 0. -/
theorem C4_first_match_wins_witness :
    getS ((join_points_to_geojson (fun s => if s = "5" then (5 : ℚ) else 0)
        [[("latitude", "5"), ("longitude", "5")]]
        [⟨[("gid", "A")], Geometry.Polygon [[(0, 0), (10, 0), (10, 10), (0, 10)]]⟩]
        "gid" "latitude" "longitude").1.getD 0 []) "gid" =
      firstMatchSpec "gid"
        ((fun s => if s = "5" then (5 : ℚ) else 0)
          (getS (([[("latitude", "5"), ("longitude", "5")]] : List Row).getD 0 [])
            "longitude"),
         (fun s => if s = "5" then (5 : ℚ) else 0)
          (getS (([[("latitude", "5"), ("longitude", "5")]] : List Row).getD 0 [])
            "latitude"))
        [⟨[("gid", "A")], Geometry.Polygon [[(0, 0), (10, 0), (10, 10), (0, 10)]]⟩] ∧
    ((∀ f ∈ [(⟨[("gid", "A")],
        Geometry.Polygon [[(0, 0), (10, 0), (10, 10), (0, 10)]]⟩ : Feature)],
      ¬matchPred "gid"
        ((fun s => if s = "5" then (5 : ℚ) else 0)
          (getS (([[("latitude", "5"), ("longitude", "5")]] : List Row).getD 0 [])
            "longitude"),
         (fun s => if s = "5" then (5 : ℚ) else 0)
          (getS (([[("latitude", "5"), ("longitude", "5")]] : List Row).getD 0 [])
            "latitude")) f = true) →
      getS ((join_points_to_geojson (fun s => if s = "5" then (5 : ℚ) else 0)
          [[("latitude", "5"), ("longitude", "5")]]
          [⟨[("gid", "A")], Geometry.Polygon [[(0, 0), (10, 0), (10, 10), (0, 10)]]⟩]
          "gid" "latitude" "longitude").1.getD 0 []) "gid" = "" ∧
      ∃ S ∈ (join_points_to_geojson (fun s => if s = "5" then (5 : ℚ) else 0)
          [[("latitude", "5"), ("longitude", "5")]]
          [⟨[("gid", "A")], Geometry.Polygon [[(0, 0), (10, 0), (10, 10), (0, 10)]]⟩]
          "gid" "latitude" "longitude").2, S.pid = "") :=
  C4_first_match_wins (fun s => if s = "5" then (5 : ℚ) else 0)
    [[("latitude", "5"), ("longitude", "5")]]
    [⟨[("gid", "A")], Geometry.Polygon [[(0, 0), (10, 0), (10, 10), (0, 10)]]⟩]
    "gid" "latitude" "longitude" 0 (by norm_num)
    (by intro f hf; simp only [List.mem_singleton] at hf; subst hf
        simp [Geometry.wellFormed])

/-- C7: every summary row's `min_pvalue` is the running minimum, initialized
to 1.0, of the `gi_star_pvalue` values of the points assigned to its
polygon id, and its `mean_zscore` is the sum of the group's
`gi_star_zscore` values divided by its `point_count`. -/
theorem C7_summary_minp_mean (pq : String → ℚ) (point_rows : List Row)
    (features : List Feature) (pc lat_col lon_col : String) :
    ∀ S ∈ (join_points_to_geojson pq point_rows features pc lat_col lon_col).2,
      S.min_pvalue = some (((groupOf pc S.pid
          (join_points_to_geojson pq point_rows features pc lat_col lon_col).1).map
          (fun r => pq (getS r "gi_star_pvalue"))).foldl min 1) ∧
      S.mean_zscore = some (((groupOf pc S.pid
          (join_points_to_geojson pq point_rows features pc lat_col lon_col).1).map
          (fun r => pq (getS r "gi_star_zscore"))).sum / (S.point_count : ℚ)) := by
  intro S hS
  obtain ⟨a, ha, hfin⟩ :=
    summary_of_mem pq point_rows features pc lat_col lon_col S hS
  have hchar := buildMap_char pq pc _ a ha
  set joined := (join_points_to_geojson pq point_rows features pc lat_col lon_col).1
    with hj
  set grp := groupOf pc a.pid joined with hg
  have hSpid : S.pid = a.pid := by rw [hfin]; rfl
  have hcount : a.point_count = grp.length := by
    rw [hchar]
    unfold aggOfGroup
    rw [foldGroup_point_count]
    simp [freshAgg]
  have hne : grp ≠ [] := buildMap_group_nonempty pq pc joined a ha
  have hpos : a.point_count ≠ 0 := by
    rw [hcount]
    simpa [List.length_eq_zero] using hne
  have hminp : a.min_pvalue =
      (grp.map (fun r => pq (getS r "gi_star_pvalue"))).foldl min 1 := by
    rw [hchar]
    unfold aggOfGroup
    rw [foldGroup_min_pvalue, List.foldl_map]
    simp [freshAgg]
  have hzsum : a.zscore_sum =
      (grp.map (fun r => pq (getS r "gi_star_zscore"))).sum := by
    rw [hchar]
    unfold aggOfGroup
    rw [foldGroup_zscore_sum]
    simp [freshAgg]
  have hfp : (finalizeAgg a).pid = a.pid := rfl
  have hfc : (finalizeAgg a).point_count = a.point_count := rfl
  have hfm : (finalizeAgg a).min_pvalue =
      if a.point_count = 0 then none else some a.min_pvalue := rfl
  have hfz : (finalizeAgg a).mean_zscore =
      if a.point_count = 0 then none
      else some (a.zscore_sum / (a.point_count : ℚ)) := rfl
  constructor
  · rw [hfin, hfp, hfm, if_neg hpos, ← hg, hminp]
  · rw [hfin, hfp, hfc, hfz, if_neg hpos, ← hg, hzsum]

/-- C7 witness: a single point with p-value and z-score zero, matched by no
feature, yields `min_pvalue = min 1 0 = 0` and `mean_zscore = 0 / 1 = 0`. -/
theorem C7_summary_minp_mean_witness :
    exampleSummaryRow.min_pvalue =
      some (((groupOf "gid" exampleSummaryRow.pid exampleJoin.1).map
        (fun r => examplePq (getS r "gi_star_pvalue"))).foldl min 1) ∧
    exampleSummaryRow.mean_zscore =
      some (((groupOf "gid" exampleSummaryRow.pid exampleJoin.1).map
        (fun r => examplePq (getS r "gi_star_zscore"))).sum /
        (exampleSummaryRow.point_count : ℚ)) :=
  C7_summary_minp_mean examplePq [exampleRowNS] [] "gid" "latitude" "longitude"
    exampleSummaryRow exampleJoin_summary_mem

end HotspotAnalysis
